import Mathlib

/-!
TeaWeb WAF engine (`teawaf/waf.go`): embedding and verified properties.

The Go type `WAF` owns two ordered lists of rule groups (inbound, outbound), a
version stamp and a few cached flags.  This file embeds the operations of
`teawaf/waf.go` as Lean functions and proves properties of the match loop
(`MatchRequest`, `MatchResponse`), of the template merger (`MergeTemplate`), of the
list mutators (`AddRuleGroup`, `RemoveRuleGroup`, `MoveInboundRuleGroup`,
`MoveOutboundRuleGroup`), of `Save` / `NewWAFFromFile` and of `Copy`.

Conventions of the embedding

* Go strings are `String`; `len(s) == 0` is `s.isEmpty`.
* A Go `error` is its message (`GoError`); `nil` is `none`.
* `[]*rules.RuleGroup` is a `List RuleGroup` of values.  A mutation through a
  group pointer (`oldGroup.AddRuleSet(set)` in `MergeTemplate`) is a write to the
  list entry the pointer was read from; the entries of one document are distinct
  objects, as they are in a document decoded from YAML or built by `Template()`.
* Package `rules`, package `actions`, `teaconst.TeaVersion`, `Template()`,
  `stringutil.Rand`, the YAML encoder and the file system are not part of `waf.go`;
  what `waf.go` calls from them is passed in as a parameter (`MatchEnv`, `MergeEnv`,
  `FileEnv`).
* Go `int` indices are `Int`; no arithmetic on them can overflow in `waf.go`.
* Observable effects of a match (group evaluations, registry look-ups, action
  performs, callback calls) are recorded in a trace, the response writer is an
  explicit state of type `W`.
-/

namespace TeaWAF

/-! ## Data model -/

/-- A Go `error`, identified with its message. -/
abbrev GoError := String

/-- Type `rules.Rule`: one predicate over a checkpoint. -/
structure Rule where
  Param : String
  Operator : String
  Value : String
  IsCaseInsensitive : Bool
  deriving DecidableEq, Repr

/-- Type `rules.RuleSet`: the fields `waf.go` reads are `Code`, `Name` and `Action`. -/
structure RuleSet where
  Id : String
  Code : String
  Name : String
  Connector : String
  Action : String
  Rules : List Rule
  deriving DecidableEq, Repr

/-- Type `rules.RuleGroup`: the fields `waf.go` reads are `Id`, `Code`, `Name`, `On`,
`IsInbound` and `RuleSets`. -/
structure RuleGroup where
  Id : String
  Code : String
  Name : String
  On : Bool
  IsInbound : Bool
  RuleSets : List RuleSet
  deriving DecidableEq, Repr

/-- Type `WAF` of `waf.go`.  `checkpointsMap` only feeds the rules of package `rules`
and is left out; `onActionCallback = none` is the Go `nil` function value. -/
structure WAF where
  Id : String
  On : Bool
  Name : String
  Inbound : List RuleGroup
  Outbound : List RuleGroup
  CreatedVersion : String
  hasInboundRules : Bool
  hasOutboundRules : Bool
  onActionCallback : Option (String → Bool)

/-- The zero value `&WAF{}` of Go. -/
def WAF.zero : WAF :=
  { Id := "", On := false, Name := "", Inbound := [], Outbound := [], CreatedVersion := "",
    hasInboundRules := false, hasOutboundRules := false, onActionCallback := none }

/-- Function `NewWAF`; `id` is the value `stringutil.Rand(16)` returned. -/
def NewWAF (id : String) : WAF :=
  { WAF.zero with Id := id, On := true }

/-! ## CRUD on groups -/

/-- Method `WAF.AddRuleGroup`. -/
def WAF.AddRuleGroup (this : WAF) (ruleGroup : RuleGroup) : WAF :=
  if ruleGroup.IsInbound then
    { this with Inbound := this.Inbound ++ [ruleGroup] }
  else
    { this with Outbound := this.Outbound ++ [ruleGroup] }

/-- Method `WAF.FindRuleGroup`. -/
def WAF.FindRuleGroup (this : WAF) (ruleGroupId : String) : Option RuleGroup :=
  if ruleGroupId.isEmpty then none
  else
    match this.Inbound.find? (fun group => group.Id == ruleGroupId) with
    | some group => some group
    | none => this.Outbound.find? (fun group => group.Id == ruleGroupId)

/-- Method `WAF.FindRuleGroupWithCode`. -/
def WAF.FindRuleGroupWithCode (this : WAF) (ruleGroupCode : String) : Option RuleGroup :=
  if ruleGroupCode.isEmpty then none
  else
    match this.Inbound.find? (fun group => group.Code == ruleGroupCode) with
    | some group => some group
    | none => this.Outbound.find? (fun group => group.Code == ruleGroupCode)

/-- Method `WAF.ContainsGroupCode`. -/
def WAF.ContainsGroupCode (this : WAF) (code : String) : Bool :=
  if code.isEmpty then false
  else if this.Inbound.any (fun group => group.Code == code) then true
  else if this.Outbound.any (fun group => group.Code == code) then true
  else false

/-- Method `WAF.Copy`: only `Id`, `On`, `Name`, `Inbound`, `Outbound` are set, every
other field has its zero value. -/
def WAF.Copy (this : WAF) : WAF :=
  { WAF.zero with
    Id := this.Id, On := this.On, Name := this.Name,
    Inbound := this.Inbound, Outbound := this.Outbound }

/-- Method `WAF.OnAction`. -/
def WAF.OnAction (this : WAF) (onActionCallback : Option (String → Bool)) : WAF :=
  { this with onActionCallback := onActionCallback }

/-- The loop `for _, group := range groups { err := group.Init(); if err != nil { return err } }`
of `WAF.Init`; `groupInit` is `RuleGroup.Init` of package `rules`. -/
def initGroups (groupInit : RuleGroup → Option GoError) : List RuleGroup → Option GoError
  | [] => none
  | group :: rest =>
    match groupInit group with
    | some err => some err
    | none => initGroups groupInit rest

/-- Method `WAF.Init`: caches the two flags from the list lengths, then initialises the
inbound groups and the outbound groups, stopping at the first error. -/
def WAF.Init (groupInit : RuleGroup → Option GoError) (this : WAF) : WAF × Option GoError :=
  let this1 : WAF :=
    { this with
      hasInboundRules := decide (this.Inbound.length > 0),
      hasOutboundRules := decide (this.Outbound.length > 0) }
  match (if this1.hasInboundRules then initGroups groupInit this1.Inbound else none) with
  | some err => (this1, some err)
  | none =>
    match (if this1.hasOutboundRules then initGroups groupInit this1.Outbound else none) with
    | some err => (this1, some err)
    | none => (this1, none)

/-! ## The match loop -/

/-- The three results `(b bool, set *RuleSet, err error)` of `RuleGroup.MatchRequest` and
`RuleGroup.MatchResponse`. -/
structure GroupMatch where
  b : Bool
  set : Option RuleSet
  err : Option GoError
  deriving DecidableEq, Repr

/-- An action instance of package `actions`: `Perform(writer)` returns `goNext` and
leaves the writer in a new state. -/
structure ActionObject (W : Type) where
  Perform : W → Bool × W

/-- What `waf.go` calls from packages `rules` and `actions` during a match. -/
structure MatchEnv (Req Resp W : Type) where
  GroupMatchRequest : RuleGroup → Req → GroupMatch
  GroupMatchResponse : RuleGroup → Req → Resp → GroupMatch
  FindActionInstance : String → Option (ActionObject W)

/-- The observable steps of one match call. -/
inductive Event where
  | evalGroup (group : RuleGroup)
  | findAction (action : String)
  | perform (action : String)
  | callback (action : String)
  deriving DecidableEq, Repr

/-- How a match call ends: with its three results, or in the runtime panic of
dereferencing a nil `set` (a group that reports `b = true` with `set = nil`). -/
inductive MatchReturn where
  | returned (goNext : Bool) (set : Option RuleSet) (err : Option GoError)
  | panicked
  deriving DecidableEq, Repr

/-- Result of a match call together with the final writer and the trace of steps. -/
structure MatchOutcome (W : Type) where
  ret : MatchReturn
  writer : W
  trace : List Event

/-- The block `if b { ... }` of `MatchRequest` / `MatchResponse`: dispatch of the
matched set, through the callback when one is installed, else through the registry. -/
def dispatch {W : Type} (findAction : String → Option (ActionObject W))
    (cb : Option (String → Bool)) (set : Option RuleSet) (writer : W) : MatchOutcome W :=
  match set with
  | none => ⟨MatchReturn.panicked, writer, []⟩
  | some s =>
    match cb with
    | none =>
      match findAction s.Action with
      | none =>
        ⟨MatchReturn.returned true (some s) (some ("no action called \x27" ++ s.Action ++ "\x27")),
          writer, [Event.findAction s.Action]⟩
      | some actionObject =>
        let r := actionObject.Perform writer
        ⟨MatchReturn.returned r.1 (some s) none, r.2,
          [Event.findAction s.Action, Event.perform s.Action]⟩
    | some f =>
      ⟨MatchReturn.returned (f s.Action) (some s) none, writer, [Event.callback s.Action]⟩

/-- The loop `for _, group := range groups { ... }` shared by `MatchRequest` and
`MatchResponse`; `eval` is `group.MatchRequest(req)` resp. `group.MatchResponse(req, resp)`. -/
def walkGroups {W : Type} (eval : RuleGroup → GroupMatch)
    (findAction : String → Option (ActionObject W)) (cb : Option (String → Bool))
    (writer : W) : List RuleGroup → MatchOutcome W
  | [] => ⟨MatchReturn.returned true none none, writer, []⟩
  | group :: rest =>
    if !group.On then walkGroups eval findAction cb writer rest
    else
      let r := eval group
      match r.err with
      | some err => ⟨MatchReturn.returned true none (some err), writer, [Event.evalGroup group]⟩
      | none =>
        if r.b then
          let o := dispatch findAction cb r.set writer
          { o with trace := Event.evalGroup group :: o.trace }
        else
          let o := walkGroups eval findAction cb writer rest
          { o with trace := Event.evalGroup group :: o.trace }

/-- Method `WAF.MatchRequest`. -/
def WAF.MatchRequest {Req Resp W : Type} (env : MatchEnv Req Resp W) (this : WAF)
    (rawReq : Req) (writer : W) : MatchOutcome W :=
  if !this.hasInboundRules then ⟨MatchReturn.returned true none none, writer, []⟩
  else
    walkGroups (fun group => env.GroupMatchRequest group rawReq) env.FindActionInstance
      this.onActionCallback writer this.Inbound

/-- Method `WAF.MatchResponse`. -/
def WAF.MatchResponse {Req Resp W : Type} (env : MatchEnv Req Resp W) (this : WAF)
    (rawReq : Req) (rawResp : Resp) (writer : W) : MatchOutcome W :=
  if !this.hasOutboundRules then ⟨MatchReturn.returned true none none, writer, []⟩
  else
    walkGroups (fun group => env.GroupMatchResponse group rawReq rawResp) env.FindActionInstance
      this.onActionCallback writer this.Outbound

/-! ## Template merge -/

/-- Modelled from the spec: `RuleGroup.AddRuleSet` of package `rules` is not among the
sources; adding a rule set to a group appends it to the group's ordered list of sets. -/
def RuleGroup.AddRuleSet (this : RuleGroup) (ruleSet : RuleSet) : RuleGroup :=
  { this with RuleSets := this.RuleSets ++ [ruleSet] }

/-- Modelled from the spec: `RuleGroup.FindRuleSetWithCode` of package `rules` is not among
the sources; a template set is matched by `code` against the sets of the group, an absent
(empty) code matches nothing. -/
def RuleGroup.FindRuleSetWithCode (this : RuleGroup) (code : String) : Option RuleSet :=
  if code.isEmpty then none
  else this.RuleSets.find? (fun ruleSet => ruleSet.Code == code)

/-- What `MergeTemplate` uses from outside `waf.go`: the constant `teaconst.TeaVersion`, the
document returned by `Template()`, the successive results of `stringutil.Rand(16)` (the
`n`-th call of one merge returns `Rand n`) and `RuleGroup.FindRuleSetWithCode`. -/
structure MergeEnv where
  TeaVersion : String
  Template : WAF
  Rand : Nat → String
  FindRuleSetWithCode : RuleGroup → String → Option RuleSet

/-- Replace the first entry satisfying `p` by `new`. -/
def storeFirst (p : RuleGroup → Bool) (new : RuleGroup) : List RuleGroup → List RuleGroup
  | [] => []
  | group :: rest => if p group then new :: rest else group :: storeFirst p new rest

/-- Write `new` to the object `FindRuleGroupWithCode code` points to: the first inbound
entry with that code, or else the first outbound entry with that code. -/
def WAF.storeRuleGroupWithCode (this : WAF) (code : String) (new : RuleGroup) : WAF :=
  if this.Inbound.any (fun group => group.Code == code) then
    { this with Inbound := storeFirst (fun group => group.Code == code) new this.Inbound }
  else
    { this with Outbound := storeFirst (fun group => group.Code == code) new this.Outbound }

/-- The inner loop `for _, set := range group.RuleSets { ... }` of `MergeTemplate`, run on
the object `oldGroup` points to; `groupName` is the template group's name. -/
def mergeRuleSets (find : RuleGroup → String → Option RuleSet) (groupName : String) :
    List RuleSet → RuleGroup → List String → RuleGroup × List String
  | [], oldGroup, changedItems => (oldGroup, changedItems)
  | set :: rest, oldGroup, changedItems =>
    match find oldGroup set.Code with
    | none =>
      mergeRuleSets find groupName rest (oldGroup.AddRuleSet set)
        (changedItems ++ ["+group " ++ groupName ++ " rule set:" ++ set.Name])
    | some _ => mergeRuleSets find groupName rest oldGroup changedItems

/-- The outer loop `for _, group := range groups { ... }` of `MergeTemplate`; `n` counts the
calls of `stringutil.Rand` made so far. -/
def mergeGroups (env : MergeEnv) : List RuleGroup → WAF → Nat → List String → WAF × List String
  | [], this, _, changedItems => (this, changedItems)
  | group :: rest, this, n, changedItems =>
    match this.FindRuleGroupWithCode group.Code with
    | none =>
      mergeGroups env rest (this.AddRuleGroup { group with Id := env.Rand n }) (n + 1)
        (changedItems ++ ["+group " ++ group.Name])
    | some oldGroup =>
      let r := mergeRuleSets env.FindRuleSetWithCode group.Name group.RuleSets oldGroup
        changedItems
      mergeGroups env rest (this.storeRuleGroupWithCode group.Code r.1) n r.2

/-- Method `WAF.MergeTemplate`: the document after the call and the returned `changedItems`. -/
def WAF.MergeTemplate (env : MergeEnv) (this : WAF) : WAF × List String :=
  if this.CreatedVersion == env.TeaVersion then (this, [])
  else
    mergeGroups env (env.Template.Inbound ++ env.Template.Outbound)
      { this with CreatedVersion := env.TeaVersion } 0 []

/-! ## Removing and moving groups -/

/-- The loop `for _, group := range groups { if group.Id == ruleGroupId { continue };
result = append(result, group) }` of `RemoveRuleGroup`. -/
def removeLoop (ruleGroupId : String) : List RuleGroup → List RuleGroup
  | [] => []
  | group :: rest =>
    if group.Id == ruleGroupId then removeLoop ruleGroupId rest
    else group :: removeLoop ruleGroupId rest

/-- Method `WAF.RemoveRuleGroup`. -/
def WAF.RemoveRuleGroup (this : WAF) (ruleGroupId : String) : WAF :=
  if ruleGroupId.isEmpty then this
  else
    { this with
      Inbound := removeLoop ruleGroupId this.Inbound,
      Outbound := removeLoop ruleGroupId this.Outbound }

/-- The loop `for i := 0; i < len(groups); i ++ { ... }` of `MoveInboundRuleGroup` and
`MoveOutboundRuleGroup`, from index `i` on over the remaining entries: the entry at
`fromIndex` is skipped, `group` is put before the entry at `toIndex` when
`fromIndex > toIndex` and behind it when `fromIndex < toIndex`. -/
def moveLoop (group : RuleGroup) (fromIndex toIndex : Int) : Nat → List RuleGroup → List RuleGroup
  | _, [] => []
  | i, x :: rest =>
    if (i : Int) = fromIndex then moveLoop group fromIndex toIndex (i + 1) rest
    else
      (if fromIndex > toIndex ∧ (i : Int) = toIndex then [group] else []) ++ [x] ++
        (if fromIndex < toIndex ∧ (i : Int) = toIndex then [group] else []) ++
        moveLoop group fromIndex toIndex (i + 1) rest

/-- The body shared by `MoveInboundRuleGroup` and `MoveOutboundRuleGroup`, on the list
of the direction.  The indices are Go `int`s; the three guards return the list as it
is.  Behind the guards `fromIndex` is a valid index, so `groups[fromIndex]` exists. -/
def moveRuleGroup (groups : List RuleGroup) (fromIndex toIndex : Int) : List RuleGroup :=
  if fromIndex < 0 ∨ fromIndex ≥ groups.length then groups
  else if toIndex < 0 ∨ toIndex ≥ groups.length then groups
  else if fromIndex = toIndex then groups
  else
    match groups[fromIndex.toNat]? with
    | none => groups
    | some group => moveLoop group fromIndex toIndex 0 groups

/-- Method `WAF.MoveInboundRuleGroup`. -/
def WAF.MoveInboundRuleGroup (this : WAF) (fromIndex toIndex : Int) : WAF :=
  { this with Inbound := moveRuleGroup this.Inbound fromIndex toIndex }

/-- Method `WAF.MoveOutboundRuleGroup`. -/
def WAF.MoveOutboundRuleGroup (this : WAF) (fromIndex toIndex : Int) : WAF :=
  { this with Outbound := moveRuleGroup this.Outbound fromIndex toIndex }

/-! ## Saving and loading -/

/-- The persisted part of a `WAF`: its exported fields, the ones that carry a `yaml` tag. -/
structure Document where
  Id : String
  On : Bool
  Name : String
  Inbound : List RuleGroup
  Outbound : List RuleGroup
  CreatedVersion : String
  deriving DecidableEq, Repr

/-- The exported fields of a `WAF`, which `yaml.Marshal(this)` writes. -/
def WAF.document (this : WAF) : Document :=
  { Id := this.Id, On := this.On, Name := this.Name, Inbound := this.Inbound,
    Outbound := this.Outbound, CreatedVersion := this.CreatedVersion }

/-- The value `waf = &WAF{}` after `reader.ReadYAML(waf)` decoded `d` into it: the
exported fields are those of `d`, the unexported ones keep their zero value. -/
def Document.toWAF (d : Document) : WAF :=
  { WAF.zero with
    Id := d.Id, On := d.On, Name := d.Name, Inbound := d.Inbound, Outbound := d.Outbound,
    CreatedVersion := d.CreatedVersion }

/-- What `Save` and `NewWAFFromFile` use from outside `waf.go`, over file contents `B` and
file system states `FS`: the constant `teaconst.TeaVersion`, the YAML encoder and decoder
(`yaml.Marshal`, `ReadYAML` into a zero `WAF`), `ioutil.WriteFile`, `file.Exists` and the
reading of a file (`file.Reader`). -/
structure FileEnv (B FS : Type) where
  TeaVersion : String
  Marshal : Document → Except GoError B
  Unmarshal : B → Except GoError Document
  WriteFile : FS → String → B → FS × Option GoError
  Exists : FS → String → Bool
  ReadFile : FS → String → Except GoError B

/-- Outcome of `Save`: the receiver after the call, the file system after the call and
the returned error. -/
structure SaveResult (FS : Type) where
  waf : WAF
  fs : FS
  err : Option GoError

/-- Method `WAF.Save`. -/
def WAF.Save {B FS : Type} (env : FileEnv B FS) (this : WAF) (path : String) (fs : FS) :
    SaveResult FS :=
  if path.isEmpty then ⟨this, fs, some "path should not be empty"⟩
  else
    let this1 : WAF :=
      if this.CreatedVersion.isEmpty then { this with CreatedVersion := env.TeaVersion }
      else this
    match env.Marshal this1.document with
    | Except.error err => ⟨this1, fs, some err⟩
    | Except.ok data =>
      let r := env.WriteFile fs path data
      ⟨this1, r.1, r.2⟩

/-- Function `NewWAFFromFile`. -/
def NewWAFFromFile {B FS : Type} (env : FileEnv B FS) (fs : FS) (path : String) :
    Except GoError WAF :=
  if path.isEmpty then Except.error "\x27path\x27 should not be empty"
  else if !env.Exists fs path then Except.error ("\x27" ++ path ++ "\x27 not exist")
  else
    match env.ReadFile fs path with
    | Except.error err => Except.error err
    | Except.ok data =>
      match env.Unmarshal data with
      | Except.error err => Except.error err
      | Except.ok d => Except.ok d.toWAF

/-! ## Notions used in the statements -/

/-- The trace left by evaluating the enabled groups of `groups`. -/
def evalTrace (groups : List RuleGroup) : List Event :=
  (groups.filter (fun group => group.On)).map Event.evalGroup

/-- Group `group` cleanly reports "no match" under `eval`: `b = false` and `err = nil`. -/
def CleanNoMatch (eval : RuleGroup → GroupMatch) (group : RuleGroup) : Prop :=
  (eval group).b = false ∧ (eval group).err = none

instance (eval : RuleGroup → GroupMatch) (group : RuleGroup) :
    Decidable (CleanNoMatch eval group) := by
  unfold CleanNoMatch; infer_instance

/-- Group `g1` is group `g` with zero or more rule sets appended: same id, code, name,
flags, and the rule sets of `g` first, unchanged and in order. -/
def GroupExtends (g g1 : RuleGroup) : Prop :=
  ∃ more : List RuleSet, g1 = { g with RuleSets := g.RuleSets ++ more }

/-- Every index of `l` holds in `l1` the same group, possibly with rule sets appended. -/
def ListExtends (l l1 : List RuleGroup) : Prop :=
  ∀ (i : Nat) (x : RuleGroup), l[i]? = some x → ∃ x1, l1[i]? = some x1 ∧ GroupExtends x x1

/-- Document `w1` keeps everything of `w`: both lists extend those of `w` and all other
fields are equal. -/
def DocExtends (w w1 : WAF) : Prop :=
  ListExtends w.Inbound w1.Inbound ∧ ListExtends w.Outbound w1.Outbound ∧
  w1.Id = w.Id ∧ w1.On = w.On ∧ w1.Name = w.Name ∧ w1.CreatedVersion = w.CreatedVersion ∧
  w1.hasInboundRules = w.hasInboundRules ∧ w1.hasOutboundRules = w.hasOutboundRules ∧
  w1.onActionCallback = w.onActionCallback

/-- The list of the document that holds the groups of a direction: `Inbound` for
`IsInbound = true`, `Outbound` otherwise (the choice `AddRuleGroup` makes). -/
def WAF.groupsOf (this : WAF) (isInbound : Bool) : List RuleGroup :=
  if isInbound then this.Inbound else this.Outbound

/-- One append performed by a merge: template group `group` appended to the document
(under a fresh id), or template set `set` of template group `group` appended to the
group already present under that code. -/
inductive Change where
  | addGroup (group : RuleGroup)
  | addSet (group : RuleGroup) (set : RuleSet)
  deriving DecidableEq, Repr

/-- The entry of the change list that `MergeTemplate` writes for an append. -/
def Change.render : Change → String
  | Change.addGroup group => "+group " ++ group.Name
  | Change.addSet group set => "+group " ++ group.Name ++ " rule set:" ++ set.Name

/-- Carry out one append on a document; `n` counts the ids drawn so far.  Appending a
set fails when no group with the code is present. -/
def Change.apply (rand : Nat → String) : Change → WAF × Nat → Option (WAF × Nat)
  | Change.addGroup group, (w, n) => some (w.AddRuleGroup { group with Id := rand n }, n + 1)
  | Change.addSet group set, (w, n) =>
    match w.FindRuleGroupWithCode group.Code with
    | none => none
    | some oldGroup => some (w.storeRuleGroupWithCode group.Code (oldGroup.AddRuleSet set), n)

/-- Carry out a list of appends in order. -/
def replay (rand : Nat → String) : List Change → WAF × Nat → Option (WAF × Nat)
  | [], st => some st
  | c :: rest, st =>
    match c.apply rand st with
    | none => none
    | some st1 => replay rand rest st1

/-- The appends a merge can make for one template group: the group itself, or some of
its rule sets, in the order they have in the group. -/
def SegmentOf (group : RuleGroup) (seg : List Change) : Prop :=
  seg = [Change.addGroup group] ∨
  ∃ added : List RuleSet, List.Sublist added group.RuleSets ∧
    seg = added.map (Change.addSet group)

/-! ## Concrete data used to instantiate the theorems -/

/-- A rule set with the given code, name and action. -/
def exSet (code name action : String) : RuleSet :=
  { Id := "set-" ++ code, Code := code, Name := name, Connector := "or", Action := action,
    Rules := [] }

/-- A rule group with the given code, state, direction and sets. -/
def exGroup (code : String) (enabled inbound : Bool) (sets : List RuleSet) : RuleGroup :=
  { Id := "group-" ++ code, Code := code, Name := code, On := enabled, IsInbound := inbound,
    RuleSets := sets }

/-- A document with the given lists, not yet initialised and without callback. -/
def exWAF (inbound outbound : List RuleGroup) (version : String) : WAF :=
  { WAF.zero with
    Id := "waf", On := true, Name := "waf", Inbound := inbound, Outbound := outbound,
    CreatedVersion := version }

/-- A group evaluation for the examples: groups with code `boom` fail, any other group
matches with its first set, and reports no match when it has none. -/
def exEval (group : RuleGroup) : GroupMatch :=
  if group.Code == "boom" then ⟨false, none, some "rule failed"⟩
  else
    match group.RuleSets with
    | [] => ⟨false, none, none⟩
    | set :: _ => ⟨true, some set, none⟩

/-- An action registry for the examples over a writer that records status codes:
`block` writes 403 and stops, `allow` writes nothing and goes on. -/
def exFindAction (action : String) : Option (ActionObject (List Nat)) :=
  if action == "block" then some ⟨fun writer => (false, writer ++ [403])⟩
  else if action == "allow" then some ⟨fun writer => (true, writer)⟩
  else none

/-- The match environment of the examples (requests and responses carry no data). -/
def exMatchEnv : MatchEnv Unit Unit (List Nat) :=
  { GroupMatchRequest := fun group _ => exEval group,
    GroupMatchResponse := fun group _ _ => exEval group,
    FindActionInstance := exFindAction }

/-- The document of the C1 instance: initialised, with one disabled group in each
direction; either group would match and block if it were enabled. -/
def c1WAF : WAF :=
  (WAF.Init (fun _ => none)
    (exWAF [exGroup "sqli" false true [exSet "s" "s" "block"]]
      [exGroup "leak" false false [exSet "t" "t" "block"]] "0.1")).1

/-- Four groups of one direction: an enabled group without sets, a disabled group that
would block, the enabled group `code` whose only set names `action`, and a later enabled
group that would allow. -/
def exGroups (inbound : Bool) (code action : String) : List RuleGroup :=
  [exGroup "quiet" true inbound [], exGroup "off" false inbound [exSet "s0" "zero" "block"],
    exGroup code true inbound [exSet "s1" "first" action],
    exGroup "later" true inbound [exSet "s2" "second" "allow"]]

/-- An uninitialised document with `exGroups` in both directions. -/
def exDoc (code action : String) : WAF :=
  exWAF (exGroups true code action) (exGroups false code action) "0.1"

/-- A host callback for the examples: only the action `allow` lets the request go on. -/
def exCallback (action : String) : Bool :=
  action == "allow"

/-- The successive results of `stringutil.Rand(16)` in the examples. -/
def exRand : Nat → String
  | 0 => "AAAAAAAAAAAAAAAA"
  | 1 => "BBBBBBBBBBBBBBBB"
  | _ => "CCCCCCCCCCCCCCCC"

/-- A template with the inbound groups `xss` and `sqli` (the latter with the set `union`)
and the outbound group `leak`. -/
def exTemplate : WAF :=
  exWAF [exGroup "xss" true true [exSet "script" "script" "block"],
      exGroup "sqli" true true [exSet "union" "union" "block"]]
    [exGroup "leak" true false [exSet "php" "php" "tag"]] "1.0"

/-- The merge environment of the examples: engine version `1.0`, template `exTemplate`. -/
def exMergeEnv : MergeEnv :=
  { TeaVersion := "1.0", Template := exTemplate, Rand := exRand,
    FindRuleSetWithCode := RuleGroup.FindRuleSetWithCode }

/-- A user-authored outbound group: disabled, without code. -/
def exUserGroup (sets : List RuleSet) : RuleGroup :=
  { Id := "user-1", Code := "", Name := "mine", On := false, IsInbound := false,
    RuleSets := sets }

/-- A stored document of version `0.9`: the group `sqli` with a user-added set `custom`,
and a user-authored outbound group without code. -/
def exLoaded : WAF :=
  exWAF [exGroup "sqli" true true [exSet "custom" "custom" "log"]]
    [exUserGroup [exSet "mine" "mine" "allow"]] "0.9"

/-- A second merge environment of the same engine version: another template, other
random ids. -/
def exMergeEnv2 : MergeEnv :=
  { TeaVersion := "1.0",
    Template := exWAF [exGroup "rce" true true [exSet "exec" "exec" "block"]] [] "1.0",
    Rand := fun _ => "DDDDDDDDDDDDDDDD",
    FindRuleSetWithCode := RuleGroup.FindRuleSetWithCode }

/-- First template group carrying the code `sqli`. -/
def exTwinA : RuleGroup :=
  { Id := "t1", Code := "sqli", Name := "first", On := true, IsInbound := true,
    RuleSets := [exSet "union" "union-a" "block"] }

/-- Second template group carrying the same code `sqli`, with a set of the same code. -/
def exTwinB : RuleGroup :=
  { Id := "t2", Code := "sqli", Name := "second", On := true, IsInbound := true,
    RuleSets := [exSet "union" "union-b" "log"] }

/-- A merge environment whose template repeats the group code `sqli`. -/
def exTwinEnv : MergeEnv :=
  { TeaVersion := "1.0", Template := exWAF [exTwinA, exTwinB] [] "1.0", Rand := exRand,
    FindRuleSetWithCode := RuleGroup.FindRuleSetWithCode }

/-- A stored document of version `0.9` without any group. -/
def exEmpty : WAF :=
  exWAF [] [] "0.9"

/-- The numeric components of a version: `1.10.2` gives `[1, 10, 2]`; `acc` is the
component read so far. -/
def versionParts : List Char → Nat → List Nat
  | [], acc => [acc]
  | c :: rest, acc =>
    if c = '.' then acc :: versionParts rest 0
    else versionParts rest (acc * 10 + (c.toNat - 48))

/-- Lexicographic order on component lists. -/
def partsLe : List Nat → List Nat → Bool
  | [], _ => true
  | _ :: _, [] => false
  | a :: as, b :: bs => decide (a < b) || (a == b && partsLe as bs)

/-- Modelled from the spec: the version order is not defined in the sources; the spec
orders versions lexicographically per semver policy, that is component by component as
numbers. -/
def versionLe (a b : String) : Bool :=
  partsLe (versionParts a.data 0) (versionParts b.data 0)

/-- A document stamped `2.0` by a newer engine, merged by the engine `1.0` of `exMergeEnv`. -/
def exNewer : WAF :=
  exWAF [exGroup "sqli" true true [exSet "custom" "custom" "log"]] [] "2.0"

/-- A document with four inbound groups `a`, `b`, `c`, `d` and two outbound groups. -/
def exMoveDoc : WAF :=
  exWAF [exGroup "a" true true [], exGroup "b" true true [], exGroup "c" true true [],
      exGroup "d" true true []]
    [exGroup "x" true false [], exGroup "y" true false []] "1.0"

/-- A file system for the examples: the list of files written, newest first. -/
abbrev ExFS := List (String × Document)

/-- The file environment of the examples: the file content is the document itself,
files live in an association list, the path `/readonly` cannot be written. -/
def exFileEnv : FileEnv Document ExFS :=
  { TeaVersion := "1.0",
    Marshal := fun d => Except.ok d,
    Unmarshal := fun b => Except.ok b,
    WriteFile := fun fs path data =>
      if path == "/readonly" then (fs, some "permission denied") else ((path, data) :: fs, none),
    Exists := fun fs path => (fs.lookup path).isSome,
    ReadFile := fun fs path =>
      match fs.lookup path with
      | some data => Except.ok data
      | none => Except.error "read failed" }

/-- A document never saved before: its `CreatedVersion` is empty. -/
def exFresh : WAF :=
  exWAF [exGroup "sqli" true true [exSet "custom" "custom" "log"]] [] ""

/-- The direction invariant of a document: every inbound entry has `IsInbound = true`,
every outbound entry has `IsInbound = false`. -/
def DirectionOK (w : WAF) : Prop :=
  (∀ g ∈ w.Inbound, g.IsInbound = true) ∧ (∀ g ∈ w.Outbound, g.IsInbound = false)

instance (w : WAF) : Decidable (DirectionOK w) := by
  unfold DirectionOK; infer_instance

/-- A template that breaks the direction invariant itself: an outbound group listed
inbound and an inbound group listed outbound. -/
def exMixedEnv : MergeEnv :=
  { TeaVersion := "1.1",
    Template := exWAF [exGroup "leak" true false [exSet "php" "php" "tag"]]
      [exGroup "xss" true true [exSet "script" "script" "block"]] "1.0",
    Rand := exRand, FindRuleSetWithCode := RuleGroup.FindRuleSetWithCode }

/-- The group codes of a document, inbound entries first, then outbound entries. -/
def WAF.groupCodes (this : WAF) : List String :=
  (this.Inbound ++ this.Outbound).map (fun group => group.Code)

/-- No two groups of inbound∪outbound share a non-empty code: two entries at different
positions with equal codes have the empty code. -/
def UniqueCodes (w : WAF) : Prop :=
  w.groupCodes.Pairwise (fun a b => a = b → a.isEmpty = true)

instance (w : WAF) : Decidable (UniqueCodes w) := by
  unfold UniqueCodes; infer_instance

/-- The encoder and decoder of the environment round-trip: what `Marshal` wrote,
`Unmarshal` decodes to the document that was encoded. -/
def CodecRoundTrips {B FS : Type} (env : FileEnv B FS) : Prop :=
  ∀ (d : Document) (b : B), env.Marshal d = Except.ok b → env.Unmarshal b = Except.ok d

/-- The file system of the environment stores what is written: after a `WriteFile`
without error the file exists and reading it gives the content written. -/
def FileSystemStores {B FS : Type} (env : FileEnv B FS) : Prop :=
  ∀ (fs fs1 : FS) (path : String) (b : B), env.WriteFile fs path b = (fs1, none) →
    env.Exists fs1 path = true ∧ env.ReadFile fs1 path = Except.ok b

/-- The result of a match call that passes without any step: `(true, nil, nil)`, the
writer as it was, the empty trace. -/
def passOutcome {W : Type} (writer : W) : MatchOutcome W :=
  ⟨MatchReturn.returned true none none, writer, []⟩

/-- The document after `AddRuleGroup` was called for each group of `groups` in order. -/
def addRuleGroups (w : WAF) (groups : List RuleGroup) : WAF :=
  groups.foldl WAF.AddRuleGroup w

/-- The document `exLoaded` restamped with the engine version `1.0`. -/
def exCurrent : WAF :=
  { exLoaded with CreatedVersion := "1.0" }

/-- A document in which the id `dup` is carried by two inbound groups and one outbound
group, next to groups with other ids and a group with the empty id. -/
def exDupDoc : WAF :=
  exWAF [{ exTwinA with Id := "dup" }, exGroup "a" true true [], { exTwinB with Id := "dup" },
      { exTwinA with Id := "" }]
    [exUserGroup [], { exUserGroup [] with Id := "dup" }] "1.0"

/-! ## Lemmas on the match loop -/

theorem Init_fst_Inbound (gi : RuleGroup → Option GoError) (w : WAF) :
    (WAF.Init gi w).1.Inbound = w.Inbound := by
  unfold WAF.Init
  dsimp only
  split
  · rfl
  · split <;> rfl

theorem Init_fst_Outbound (gi : RuleGroup → Option GoError) (w : WAF) :
    (WAF.Init gi w).1.Outbound = w.Outbound := by
  unfold WAF.Init
  dsimp only
  split
  · rfl
  · split <;> rfl

theorem Init_fst_callback (gi : RuleGroup → Option GoError) (w : WAF) :
    (WAF.Init gi w).1.onActionCallback = w.onActionCallback := by
  unfold WAF.Init
  dsimp only
  split
  · rfl
  · split <;> rfl

theorem Init_fst_hasInboundRules (gi : RuleGroup → Option GoError) (w : WAF) :
    (WAF.Init gi w).1.hasInboundRules = decide (w.Inbound.length > 0) := by
  unfold WAF.Init
  dsimp only
  split
  · rfl
  · split <;> rfl

theorem Init_fst_hasOutboundRules (gi : RuleGroup → Option GoError) (w : WAF) :
    (WAF.Init gi w).1.hasOutboundRules = decide (w.Outbound.length > 0) := by
  unfold WAF.Init
  dsimp only
  split
  · rfl
  · split <;> rfl

theorem walkGroups_all_off {W : Type} (eval : RuleGroup → GroupMatch)
    (fa : String → Option (ActionObject W)) (cb : Option (String → Bool)) (writer : W)
    (groups : List RuleGroup) (h : ∀ g ∈ groups, g.On = false) :
    walkGroups eval fa cb writer groups = ⟨MatchReturn.returned true none none, writer, []⟩ := by
  induction groups with
  | nil => rfl
  | cons g rest ih =>
    have hg : g.On = false := h g (List.mem_cons_self _ _)
    have hrest : ∀ x ∈ rest, x.On = false := fun x hx => h x (List.mem_cons_of_mem _ hx)
    simp [walkGroups, hg, ih hrest]

theorem walkGroups_skip {W : Type} (eval : RuleGroup → GroupMatch)
    (fa : String → Option (ActionObject W)) (cb : Option (String → Bool)) (writer : W)
    (pre rest : List RuleGroup)
    (h : ∀ g ∈ pre, g.On = true → CleanNoMatch eval g) :
    walkGroups eval fa cb writer (pre ++ rest) =
      { walkGroups eval fa cb writer rest with
        trace := evalTrace pre ++ (walkGroups eval fa cb writer rest).trace } := by
  induction pre with
  | nil => simp [evalTrace]
  | cons g pre ih =>
    have hpre : ∀ x ∈ pre, x.On = true → CleanNoMatch eval x :=
      fun x hx => h x (List.mem_cons_of_mem _ hx)
    have ih1 := ih hpre
    cases hon : g.On with
    | false =>
      simp [walkGroups, hon, ih1, evalTrace]
    | true =>
      have hc := h g (List.mem_cons_self _ _) hon
      simp [walkGroups, hon, ih1, evalTrace, hc.1, hc.2]

theorem walkGroups_first {W : Type} (eval : RuleGroup → GroupMatch)
    (fa : String → Option (ActionObject W)) (cb : Option (String → Bool)) (writer : W)
    (pre post : List RuleGroup) (g : RuleGroup)
    (h : ∀ x ∈ pre, x.On = true → CleanNoMatch eval x)
    (hon : g.On = true) (herr : (eval g).err = none) (hb : (eval g).b = true) :
    walkGroups eval fa cb writer (pre ++ g :: post) =
      { dispatch fa cb (eval g).set writer with
        trace := evalTrace pre ++ Event.evalGroup g :: (dispatch fa cb (eval g).set writer).trace } := by
  rw [walkGroups_skip eval fa cb writer pre (g :: post) h]
  simp [walkGroups, hon, herr, hb]

theorem walkGroups_error {W : Type} (eval : RuleGroup → GroupMatch)
    (fa : String → Option (ActionObject W)) (cb : Option (String → Bool)) (writer : W)
    (pre post : List RuleGroup) (g : RuleGroup) (e : GoError)
    (h : ∀ x ∈ pre, x.On = true → CleanNoMatch eval x)
    (hon : g.On = true) (herr : (eval g).err = some e) :
    walkGroups eval fa cb writer (pre ++ g :: post) =
      ⟨MatchReturn.returned true none (some e), writer, evalTrace pre ++ [Event.evalGroup g]⟩ := by
  rw [walkGroups_skip eval fa cb writer pre (g :: post) h]
  simp [walkGroups, hon, herr]

theorem dispatch_error_goNext {W : Type} (fa : String → Option (ActionObject W))
    (cb : Option (String → Bool)) (set : Option RuleSet) (writer : W)
    (goNext : Bool) (s : Option RuleSet) (e : GoError)
    (h : (dispatch fa cb set writer).ret = MatchReturn.returned goNext s (some e)) :
    goNext = true := by
  unfold dispatch at h
  cases set with
  | none => simp at h
  | some t =>
    cases cb with
    | some f => simp at h
    | none =>
      cases hfa : fa t.Action with
      | none =>
        simp [hfa] at h
        exact h.1
      | some a => simp [hfa] at h

theorem walkGroups_error_goNext {W : Type} (eval : RuleGroup → GroupMatch)
    (fa : String → Option (ActionObject W)) (cb : Option (String → Bool)) (writer : W)
    (groups : List RuleGroup) (goNext : Bool) (s : Option RuleSet) (e : GoError)
    (h : (walkGroups eval fa cb writer groups).ret = MatchReturn.returned goNext s (some e)) :
    goNext = true := by
  induction groups with
  | nil =>
    simp [walkGroups] at h
  | cons g rest ih =>
    unfold walkGroups at h
    cases hon : g.On with
    | false =>
      simp [hon] at h
      exact ih h
    | true =>
      cases herr : (eval g).err with
      | some e1 =>
        simp [hon, herr] at h
        exact h.1
      | none =>
        cases hb : (eval g).b with
        | true =>
          simp [hon, herr, hb] at h
          exact dispatch_error_goNext fa cb _ writer goNext s e h
        | false =>
          simp [hon, herr, hb] at h
          exact ih h

/-! ## The match loop: claims C1 to C5 -/

/-- C1: if no group of the inbound list is enabled, `MatchRequest` returns
`(true, nil, nil)`, leaves the writer as it was and has an empty trace (no group is
evaluated, no callback is called, no action is looked up or performed); likewise
`MatchResponse` for the outbound list.  This holds for every document, initialised or not. -/
theorem C1_no_enabled_group_passes {Req Resp W : Type} (env : MatchEnv Req Resp W) (w : WAF)
    (rawReq : Req) (rawResp : Resp) (writer : W) :
    ((∀ g ∈ w.Inbound, g.On = false) →
      w.MatchRequest env rawReq writer =
        ⟨MatchReturn.returned true none none, writer, []⟩) ∧
    ((∀ g ∈ w.Outbound, g.On = false) →
      w.MatchResponse env rawReq rawResp writer =
        ⟨MatchReturn.returned true none none, writer, []⟩) := by
  constructor
  · intro h
    unfold WAF.MatchRequest
    split
    · rfl
    · exact walkGroups_all_off _ _ _ _ _ h
  · intro h
    unfold WAF.MatchResponse
    split
    · rfl
    · exact walkGroups_all_off _ _ _ _ _ h

/-- C1 at `c1WAF`: both calls pass without any step. -/
theorem C1_no_enabled_group_passes_witness :
    c1WAF.hasInboundRules = true ∧ c1WAF.hasOutboundRules = true ∧
    c1WAF.MatchRequest exMatchEnv () [] = ⟨MatchReturn.returned true none none, [], []⟩ ∧
    c1WAF.MatchResponse exMatchEnv () () [] = ⟨MatchReturn.returned true none none, [], []⟩ :=
  ⟨by decide, by decide,
    (C1_no_enabled_group_passes exMatchEnv c1WAF () () []).1 (by decide),
    (C1_no_enabled_group_passes exMatchEnv c1WAF () () []).2 (by decide)⟩

/-- C2: on an initialised document without callback, when the first enabled group that
matches does so with set `s`, every enabled group before it cleanly reports no match and
`s.Action` is registered as `a`, `MatchRequest` returns `(a.Perform(writer), s, nil)`, the
writer is the one `Perform` left, and the trace is: the evaluations of the enabled groups
before, the evaluation of the matching group, one registry look-up, one perform.  No
later group is evaluated or dispatched, whatever it would report.  Likewise
`MatchResponse` over the outbound list. -/
theorem C2_first_match_dispatched {Req Resp W : Type} (env : MatchEnv Req Resp W)
    (groupInit : RuleGroup → Option GoError) (w0 : WAF) (rawReq : Req) (rawResp : Resp)
    (writer : W) (pre post : List RuleGroup) (g : RuleGroup) (s : RuleSet)
    (a : ActionObject W) (hcb : w0.onActionCallback = none) (hon : g.On = true)
    (hact : env.FindActionInstance s.Action = some a) :
    (w0.Inbound = pre ++ g :: post →
      (∀ x ∈ pre, x.On = true →
        CleanNoMatch (fun group => env.GroupMatchRequest group rawReq) x) →
      env.GroupMatchRequest g rawReq = ⟨true, some s, none⟩ →
      (w0.Init groupInit).1.MatchRequest env rawReq writer =
        ⟨MatchReturn.returned (a.Perform writer).1 (some s) none, (a.Perform writer).2,
          evalTrace pre ++
            [Event.evalGroup g, Event.findAction s.Action, Event.perform s.Action]⟩) ∧
    (w0.Outbound = pre ++ g :: post →
      (∀ x ∈ pre, x.On = true →
        CleanNoMatch (fun group => env.GroupMatchResponse group rawReq rawResp) x) →
      env.GroupMatchResponse g rawReq rawResp = ⟨true, some s, none⟩ →
      (w0.Init groupInit).1.MatchResponse env rawReq rawResp writer =
        ⟨MatchReturn.returned (a.Perform writer).1 (some s) none, (a.Perform writer).2,
          evalTrace pre ++
            [Event.evalGroup g, Event.findAction s.Action, Event.perform s.Action]⟩) := by
  constructor
  · intro hlist hpre hg
    unfold WAF.MatchRequest
    rw [Init_fst_hasInboundRules, Init_fst_Inbound, Init_fst_callback, hcb, hlist]
    simp only [List.length_append, List.length_cons, gt_iff_lt, add_pos_iff, Nat.zero_lt_succ,
      or_true, decide_True, Bool.not_true, Bool.false_eq_true, ↓reduceIte]
    rw [walkGroups_first _ _ _ _ pre post g hpre hon (by simp [hg]) (by simp [hg])]
    simp [hg, dispatch, hact]
  · intro hlist hpre hg
    unfold WAF.MatchResponse
    rw [Init_fst_hasOutboundRules, Init_fst_Outbound, Init_fst_callback, hcb, hlist]
    simp only [List.length_append, List.length_cons, gt_iff_lt, add_pos_iff, Nat.zero_lt_succ,
      or_true, decide_True, Bool.not_true, Bool.false_eq_true, ↓reduceIte]
    rw [walkGroups_first _ _ _ _ pre post g hpre hon (by simp [hg]) (by simp [hg])]
    simp [hg, dispatch, hact]

/-- C2 at `exDoc "sqli" "block"`: the third group matches and blocks; the disabled group
before it and the enabled group after it play no part. -/
theorem C2_first_match_dispatched_witness :
    ((exDoc "sqli" "block").Init (fun _ => none)).1.MatchRequest exMatchEnv () [] =
      ⟨MatchReturn.returned false (some (exSet "s1" "first" "block")) none, [403],
        [Event.evalGroup (exGroup "quiet" true true []),
          Event.evalGroup (exGroup "sqli" true true [exSet "s1" "first" "block"]),
          Event.findAction "block", Event.perform "block"]⟩ ∧
    ((exDoc "sqli" "block").Init (fun _ => none)).1.MatchResponse exMatchEnv () () [] =
      ⟨MatchReturn.returned false (some (exSet "s1" "first" "block")) none, [403],
        [Event.evalGroup (exGroup "quiet" true false []),
          Event.evalGroup (exGroup "sqli" true false [exSet "s1" "first" "block"]),
          Event.findAction "block", Event.perform "block"]⟩ :=
  ⟨(C2_first_match_dispatched exMatchEnv (fun _ => none) (exDoc "sqli" "block") () () []
      [exGroup "quiet" true true [], exGroup "off" false true [exSet "s0" "zero" "block"]]
      [exGroup "later" true true [exSet "s2" "second" "allow"]]
      (exGroup "sqli" true true [exSet "s1" "first" "block"]) (exSet "s1" "first" "block")
      ⟨fun writer => (false, writer ++ [403])⟩ rfl rfl rfl).1 rfl (by decide) rfl,
    (C2_first_match_dispatched exMatchEnv (fun _ => none) (exDoc "sqli" "block") () () []
      [exGroup "quiet" true false [], exGroup "off" false false [exSet "s0" "zero" "block"]]
      [exGroup "later" true false [exSet "s2" "second" "allow"]]
      (exGroup "sqli" true false [exSet "s1" "first" "block"]) (exSet "s1" "first" "block")
      ⟨fun writer => (false, writer ++ [403])⟩ rfl rfl rfl).2 rfl (by decide) rfl⟩

/-- C3: on an initialised document without callback, when the first matching set `s`
names an action that is not in the registry, `MatchRequest` returns
`(true, s, "no action called ...")` with a non-nil error, the writer is the one passed in,
and the trace ends with the failed look-up: no action is performed.  Likewise
`MatchResponse` over the outbound list. -/
theorem C3_unknown_action_fails_open {Req Resp W : Type} (env : MatchEnv Req Resp W)
    (groupInit : RuleGroup → Option GoError) (w0 : WAF) (rawReq : Req) (rawResp : Resp)
    (writer : W) (pre post : List RuleGroup) (g : RuleGroup) (s : RuleSet)
    (hcb : w0.onActionCallback = none) (hon : g.On = true)
    (hact : env.FindActionInstance s.Action = none) :
    (w0.Inbound = pre ++ g :: post →
      (∀ x ∈ pre, x.On = true →
        CleanNoMatch (fun group => env.GroupMatchRequest group rawReq) x) →
      env.GroupMatchRequest g rawReq = ⟨true, some s, none⟩ →
      (w0.Init groupInit).1.MatchRequest env rawReq writer =
        ⟨MatchReturn.returned true (some s) (some ("no action called \x27" ++ s.Action ++ "\x27")),
          writer, evalTrace pre ++ [Event.evalGroup g, Event.findAction s.Action]⟩) ∧
    (w0.Outbound = pre ++ g :: post →
      (∀ x ∈ pre, x.On = true →
        CleanNoMatch (fun group => env.GroupMatchResponse group rawReq rawResp) x) →
      env.GroupMatchResponse g rawReq rawResp = ⟨true, some s, none⟩ →
      (w0.Init groupInit).1.MatchResponse env rawReq rawResp writer =
        ⟨MatchReturn.returned true (some s) (some ("no action called \x27" ++ s.Action ++ "\x27")),
          writer, evalTrace pre ++ [Event.evalGroup g, Event.findAction s.Action]⟩) := by
  constructor
  · intro hlist hpre hg
    unfold WAF.MatchRequest
    rw [Init_fst_hasInboundRules, Init_fst_Inbound, Init_fst_callback, hcb, hlist]
    simp only [List.length_append, List.length_cons, gt_iff_lt, add_pos_iff, Nat.zero_lt_succ,
      or_true, decide_True, Bool.not_true, Bool.false_eq_true, ↓reduceIte]
    rw [walkGroups_first _ _ _ _ pre post g hpre hon (by simp [hg]) (by simp [hg])]
    simp [hg, dispatch, hact]
  · intro hlist hpre hg
    unfold WAF.MatchResponse
    rw [Init_fst_hasOutboundRules, Init_fst_Outbound, Init_fst_callback, hcb, hlist]
    simp only [List.length_append, List.length_cons, gt_iff_lt, add_pos_iff, Nat.zero_lt_succ,
      or_true, decide_True, Bool.not_true, Bool.false_eq_true, ↓reduceIte]
    rw [walkGroups_first _ _ _ _ pre post g hpre hon (by simp [hg]) (by simp [hg])]
    simp [hg, dispatch, hact]

/-- C3 at `exDoc "sqli" "quarantine"`: the matched set names the unregistered action
`quarantine`; the call fails open and the writer stays empty. -/
theorem C3_unknown_action_fails_open_witness :
    ((exDoc "sqli" "quarantine").Init (fun _ => none)).1.MatchRequest exMatchEnv () [] =
      ⟨MatchReturn.returned true (some (exSet "s1" "first" "quarantine"))
          (some "no action called \x27quarantine\x27"), [],
        [Event.evalGroup (exGroup "quiet" true true []),
          Event.evalGroup (exGroup "sqli" true true [exSet "s1" "first" "quarantine"]),
          Event.findAction "quarantine"]⟩ ∧
    ((exDoc "sqli" "quarantine").Init (fun _ => none)).1.MatchResponse exMatchEnv () () [] =
      ⟨MatchReturn.returned true (some (exSet "s1" "first" "quarantine"))
          (some "no action called \x27quarantine\x27"), [],
        [Event.evalGroup (exGroup "quiet" true false []),
          Event.evalGroup (exGroup "sqli" true false [exSet "s1" "first" "quarantine"]),
          Event.findAction "quarantine"]⟩ :=
  ⟨(C3_unknown_action_fails_open exMatchEnv (fun _ => none) (exDoc "sqli" "quarantine") () () []
      [exGroup "quiet" true true [], exGroup "off" false true [exSet "s0" "zero" "block"]]
      [exGroup "later" true true [exSet "s2" "second" "allow"]]
      (exGroup "sqli" true true [exSet "s1" "first" "quarantine"])
      (exSet "s1" "first" "quarantine") rfl rfl rfl).1 rfl (by decide) rfl,
    (C3_unknown_action_fails_open exMatchEnv (fun _ => none) (exDoc "sqli" "quarantine") () () []
      [exGroup "quiet" true false [], exGroup "off" false false [exSet "s0" "zero" "block"]]
      [exGroup "later" true false [exSet "s2" "second" "allow"]]
      (exGroup "sqli" true false [exSet "s1" "first" "quarantine"])
      (exSet "s1" "first" "quarantine") rfl rfl rfl).2 rfl (by decide) rfl⟩

/-- C4: on an initialised document (with or without callback), when every enabled group
before `g` cleanly reports no match and the enabled group `g` reports the error `e`,
`MatchRequest` returns `(true, nil, e)`, the writer is the one passed in and the trace
holds group evaluations only, the last being that of `g`: no action, no callback, no
later group.  Likewise `MatchResponse`.  Moreover, for every document and every call,
a returned non-nil error comes with `goNext = true`. -/
theorem C4_group_error_fails_open {Req Resp W : Type} (env : MatchEnv Req Resp W)
    (groupInit : RuleGroup → Option GoError) (w0 : WAF) (rawReq : Req) (rawResp : Resp)
    (writer : W) (pre post : List RuleGroup) (g : RuleGroup) (e : GoError)
    (hon : g.On = true) :
    (w0.Inbound = pre ++ g :: post →
      (∀ x ∈ pre, x.On = true →
        CleanNoMatch (fun group => env.GroupMatchRequest group rawReq) x) →
      (env.GroupMatchRequest g rawReq).err = some e →
      (w0.Init groupInit).1.MatchRequest env rawReq writer =
        ⟨MatchReturn.returned true none (some e), writer,
          evalTrace pre ++ [Event.evalGroup g]⟩) ∧
    (w0.Outbound = pre ++ g :: post →
      (∀ x ∈ pre, x.On = true →
        CleanNoMatch (fun group => env.GroupMatchResponse group rawReq rawResp) x) →
      (env.GroupMatchResponse g rawReq rawResp).err = some e →
      (w0.Init groupInit).1.MatchResponse env rawReq rawResp writer =
        ⟨MatchReturn.returned true none (some e), writer,
          evalTrace pre ++ [Event.evalGroup g]⟩) ∧
    (∀ (w : WAF) (goNext : Bool) (set : Option RuleSet) (err : GoError),
      ((w.MatchRequest env rawReq writer).ret = MatchReturn.returned goNext set (some err) →
        goNext = true) ∧
      ((w.MatchResponse env rawReq rawResp writer).ret =
          MatchReturn.returned goNext set (some err) → goNext = true)) := by
  refine ⟨?_, ?_, ?_⟩
  · intro hlist hpre hg
    unfold WAF.MatchRequest
    rw [Init_fst_hasInboundRules, Init_fst_Inbound, Init_fst_callback, hlist]
    simp only [List.length_append, List.length_cons, gt_iff_lt, add_pos_iff, Nat.zero_lt_succ,
      or_true, decide_True, Bool.not_true, Bool.false_eq_true, ↓reduceIte]
    exact walkGroups_error _ _ _ _ pre post g e hpre hon hg
  · intro hlist hpre hg
    unfold WAF.MatchResponse
    rw [Init_fst_hasOutboundRules, Init_fst_Outbound, Init_fst_callback, hlist]
    simp only [List.length_append, List.length_cons, gt_iff_lt, add_pos_iff, Nat.zero_lt_succ,
      or_true, decide_True, Bool.not_true, Bool.false_eq_true, ↓reduceIte]
    exact walkGroups_error _ _ _ _ pre post g e hpre hon hg
  · intro w goNext set err
    constructor
    · intro h
      unfold WAF.MatchRequest at h
      split at h
      · simp at h
      · exact walkGroups_error_goNext _ _ _ _ _ goNext set err h
    · intro h
      unfold WAF.MatchResponse at h
      split at h
      · simp at h
      · exact walkGroups_error_goNext _ _ _ _ _ goNext set err h

/-- C4 at `exDoc "boom" "block"`: the third group fails; the call returns its error,
fails open and stops there. -/
theorem C4_group_error_fails_open_witness :
    ((exDoc "boom" "block").Init (fun _ => none)).1.MatchRequest exMatchEnv () [] =
      ⟨MatchReturn.returned true none (some "rule failed"), [],
        [Event.evalGroup (exGroup "quiet" true true []),
          Event.evalGroup (exGroup "boom" true true [exSet "s1" "first" "block"])]⟩ ∧
    ((exDoc "boom" "block").Init (fun _ => none)).1.MatchResponse exMatchEnv () () [] =
      ⟨MatchReturn.returned true none (some "rule failed"), [],
        [Event.evalGroup (exGroup "quiet" true false []),
          Event.evalGroup (exGroup "boom" true false [exSet "s1" "first" "block"])]⟩ :=
  ⟨(C4_group_error_fails_open exMatchEnv (fun _ => none) (exDoc "boom" "block") () () []
      [exGroup "quiet" true true [], exGroup "off" false true [exSet "s0" "zero" "block"]]
      [exGroup "later" true true [exSet "s2" "second" "allow"]]
      (exGroup "boom" true true [exSet "s1" "first" "block"]) "rule failed" rfl).1
      rfl (by decide) rfl,
    (C4_group_error_fails_open exMatchEnv (fun _ => none) (exDoc "boom" "block") () () []
      [exGroup "quiet" true false [], exGroup "off" false false [exSet "s0" "zero" "block"]]
      [exGroup "later" true false [exSet "s2" "second" "allow"]]
      (exGroup "boom" true false [exSet "s1" "first" "block"]) "rule failed" rfl).2.1
      rfl (by decide) rfl⟩

/-- C5: on a document on which `OnAction(cb)` installed a callback (before or after
`Init`), when the first matching group matches with set `s`, `MatchRequest` returns
`(cb(s.Action), s, nil)`; the trace after the group evaluations is the single callback
call with `s.Action`, without any registry look-up or perform, whatever the registry
holds for `s.Action`, and the writer is the one passed in.  Likewise `MatchResponse`. -/
theorem C5_callback_is_authoritative {Req Resp W : Type} (env : MatchEnv Req Resp W)
    (groupInit : RuleGroup → Option GoError) (w0 : WAF) (cb : String → Bool)
    (rawReq : Req) (rawResp : Resp) (writer : W) (pre post : List RuleGroup)
    (g : RuleGroup) (s : RuleSet) (hon : g.On = true) :
    (w0.Inbound = pre ++ g :: post →
      (∀ x ∈ pre, x.On = true →
        CleanNoMatch (fun group => env.GroupMatchRequest group rawReq) x) →
      env.GroupMatchRequest g rawReq = ⟨true, some s, none⟩ →
      ((w0.Init groupInit).1.OnAction (some cb)).MatchRequest env rawReq writer =
          ⟨MatchReturn.returned (cb s.Action) (some s) none, writer,
            evalTrace pre ++ [Event.evalGroup g, Event.callback s.Action]⟩ ∧
        ((w0.OnAction (some cb)).Init groupInit).1.MatchRequest env rawReq writer =
          ⟨MatchReturn.returned (cb s.Action) (some s) none, writer,
            evalTrace pre ++ [Event.evalGroup g, Event.callback s.Action]⟩) ∧
    (w0.Outbound = pre ++ g :: post →
      (∀ x ∈ pre, x.On = true →
        CleanNoMatch (fun group => env.GroupMatchResponse group rawReq rawResp) x) →
      env.GroupMatchResponse g rawReq rawResp = ⟨true, some s, none⟩ →
      ((w0.Init groupInit).1.OnAction (some cb)).MatchResponse env rawReq rawResp writer =
          ⟨MatchReturn.returned (cb s.Action) (some s) none, writer,
            evalTrace pre ++ [Event.evalGroup g, Event.callback s.Action]⟩ ∧
        ((w0.OnAction (some cb)).Init groupInit).1.MatchResponse env rawReq rawResp writer =
          ⟨MatchReturn.returned (cb s.Action) (some s) none, writer,
            evalTrace pre ++ [Event.evalGroup g, Event.callback s.Action]⟩) := by
  have hIn : ∀ w : WAF, (w.OnAction (some cb)).Inbound = w.Inbound := fun _ => rfl
  have hOut : ∀ w : WAF, (w.OnAction (some cb)).Outbound = w.Outbound := fun _ => rfl
  constructor
  · intro hlist hpre hg
    constructor
    · unfold WAF.MatchRequest
      show (if (!(w0.Init groupInit).1.hasInboundRules) = true then _ else
        walkGroups _ _ (some cb) writer (w0.Init groupInit).1.Inbound) = _
      rw [Init_fst_hasInboundRules, Init_fst_Inbound, hlist]
      simp only [List.length_append, List.length_cons, gt_iff_lt, add_pos_iff,
        Nat.zero_lt_succ, or_true, decide_True, Bool.not_true, Bool.false_eq_true, ↓reduceIte]
      rw [walkGroups_first _ _ _ _ pre post g hpre hon (by simp [hg]) (by simp [hg])]
      simp [hg, dispatch]
    · unfold WAF.MatchRequest
      rw [Init_fst_hasInboundRules, Init_fst_Inbound, Init_fst_callback, hIn, hlist]
      simp only [List.length_append, List.length_cons, gt_iff_lt, add_pos_iff,
        Nat.zero_lt_succ, or_true, decide_True, Bool.not_true, Bool.false_eq_true, ↓reduceIte]
      rw [walkGroups_first _ _ _ _ pre post g hpre hon (by simp [hg]) (by simp [hg])]
      simp [hg, dispatch, WAF.OnAction]
  · intro hlist hpre hg
    constructor
    · unfold WAF.MatchResponse
      show (if (!(w0.Init groupInit).1.hasOutboundRules) = true then _ else
        walkGroups _ _ (some cb) writer (w0.Init groupInit).1.Outbound) = _
      rw [Init_fst_hasOutboundRules, Init_fst_Outbound, hlist]
      simp only [List.length_append, List.length_cons, gt_iff_lt, add_pos_iff,
        Nat.zero_lt_succ, or_true, decide_True, Bool.not_true, Bool.false_eq_true, ↓reduceIte]
      rw [walkGroups_first _ _ _ _ pre post g hpre hon (by simp [hg]) (by simp [hg])]
      simp [hg, dispatch]
    · unfold WAF.MatchResponse
      rw [Init_fst_hasOutboundRules, Init_fst_Outbound, Init_fst_callback, hOut, hlist]
      simp only [List.length_append, List.length_cons, gt_iff_lt, add_pos_iff,
        Nat.zero_lt_succ, or_true, decide_True, Bool.not_true, Bool.false_eq_true, ↓reduceIte]
      rw [walkGroups_first _ _ _ _ pre post g hpre hon (by simp [hg]) (by simp [hg])]
      simp [hg, dispatch, WAF.OnAction]

/-- C5 at `exDoc "sqli" "quarantine"` with the callback `exCallback`, which lets only
`allow` go on: the unregistered action `quarantine` reaches the callback, whose answer
`false` is returned; the registry is not consulted and the writer stays empty. -/
theorem C5_callback_is_authoritative_witness :
    (((exDoc "sqli" "quarantine").Init (fun _ => none)).1.OnAction
        (some exCallback)).MatchRequest exMatchEnv () [] =
      ⟨MatchReturn.returned false (some (exSet "s1" "first" "quarantine")) none, [],
        [Event.evalGroup (exGroup "quiet" true true []),
          Event.evalGroup (exGroup "sqli" true true [exSet "s1" "first" "quarantine"]),
          Event.callback "quarantine"]⟩ ∧
    (((exDoc "sqli" "quarantine").Init (fun _ => none)).1.OnAction
        (some exCallback)).MatchResponse exMatchEnv () () [] =
      ⟨MatchReturn.returned false (some (exSet "s1" "first" "quarantine")) none, [],
        [Event.evalGroup (exGroup "quiet" true false []),
          Event.evalGroup (exGroup "sqli" true false [exSet "s1" "first" "quarantine"]),
          Event.callback "quarantine"]⟩ :=
  ⟨((C5_callback_is_authoritative exMatchEnv (fun _ => none) (exDoc "sqli" "quarantine")
      exCallback () () []
      [exGroup "quiet" true true [], exGroup "off" false true [exSet "s0" "zero" "block"]]
      [exGroup "later" true true [exSet "s2" "second" "allow"]]
      (exGroup "sqli" true true [exSet "s1" "first" "quarantine"])
      (exSet "s1" "first" "quarantine") rfl).1 rfl (by decide) rfl).1,
    ((C5_callback_is_authoritative exMatchEnv (fun _ => none) (exDoc "sqli" "quarantine")
      exCallback () () []
      [exGroup "quiet" true false [], exGroup "off" false false [exSet "s0" "zero" "block"]]
      [exGroup "later" true false [exSet "s2" "second" "allow"]]
      (exGroup "sqli" true false [exSet "s1" "first" "quarantine"])
      (exSet "s1" "first" "quarantine") rfl).2 rfl (by decide) rfl).1⟩

/-! ## Lemmas on the template merge -/

theorem GroupExtends_refl (g : RuleGroup) : GroupExtends g g :=
  ⟨[], by simp⟩

theorem GroupExtends_trans {g g1 g2 : RuleGroup} (h1 : GroupExtends g g1)
    (h2 : GroupExtends g1 g2) : GroupExtends g g2 := by
  obtain ⟨m1, rfl⟩ := h1
  obtain ⟨m2, rfl⟩ := h2
  exact ⟨m1 ++ m2, by simp⟩

theorem GroupExtends_code_eq {g g1 : RuleGroup} (h : GroupExtends g g1) : g1.Code = g.Code := by
  obtain ⟨m, rfl⟩ := h
  rfl

theorem ListExtends_refl (l : List RuleGroup) : ListExtends l l :=
  fun _ x hx => ⟨x, hx, GroupExtends_refl x⟩

theorem ListExtends_trans {l l1 l2 : List RuleGroup} (h1 : ListExtends l l1)
    (h2 : ListExtends l1 l2) : ListExtends l l2 := by
  intro i x hx
  obtain ⟨x1, hx1, e1⟩ := h1 i x hx
  obtain ⟨x2, hx2, e2⟩ := h2 i x1 hx1
  exact ⟨x2, hx2, GroupExtends_trans e1 e2⟩

theorem ListExtends_append (l more : List RuleGroup) : ListExtends l (l ++ more) := by
  intro i x hx
  refine ⟨x, ?_, GroupExtends_refl x⟩
  have hi : i < l.length := by
    by_contra hcon
    rw [List.getElem?_eq_none (Nat.le_of_not_lt hcon)] at hx
    exact Option.noConfusion hx
  rw [List.getElem?_append_left hi]
  exact hx

theorem storeFirst_length (p : RuleGroup → Bool) (new : RuleGroup) (l : List RuleGroup) :
    (storeFirst p new l).length = l.length := by
  induction l with
  | nil => rfl
  | cons g rest ih =>
    unfold storeFirst
    split <;> simp [ih]

theorem storeFirst_of_find_none (p : RuleGroup → Bool) (new : RuleGroup) (l : List RuleGroup)
    (h : l.find? p = none) : storeFirst p new l = l := by
  induction l with
  | nil => rfl
  | cons g rest ih =>
    unfold storeFirst
    cases hp : p g with
    | true => simp [List.find?, hp] at h
    | false =>
      simp [List.find?, hp] at h
      simp [ih (by simpa using h)]

theorem ListExtends_storeFirst (p : RuleGroup → Bool) (old new : RuleGroup)
    (l : List RuleGroup) (hfind : l.find? p = some old) (hext : GroupExtends old new) :
    ListExtends l (storeFirst p new l) := by
  induction l with
  | nil => simp at hfind
  | cons g rest ih =>
    unfold storeFirst
    cases hp : p g with
    | true =>
      simp [List.find?, hp] at hfind
      subst hfind
      intro i x hx
      cases i with
      | zero =>
        simp at hx
        subst hx
        exact ⟨new, by simp, hext⟩
      | succ j =>
        simp at hx
        exact ⟨x, by simpa using hx, GroupExtends_refl x⟩
    | false =>
      simp [List.find?, hp] at hfind
      have ih1 := ih hfind
      intro i x hx
      cases i with
      | zero =>
        simp at hx
        subst hx
        exact ⟨g, by simp, GroupExtends_refl g⟩
      | succ j =>
        simp at hx
        obtain ⟨x1, hx1, e1⟩ := ih1 j x hx
        exact ⟨x1, by simpa using hx1, e1⟩

theorem storeFirst_keeps (p : RuleGroup → Bool) (new : RuleGroup) (l : List RuleGroup)
    (i : Nat) (x : RuleGroup) (hx : l[i]? = some x) (hp : p x = false) :
    (storeFirst p new l)[i]? = some x := by
  induction l generalizing i with
  | nil => simp at hx
  | cons g rest ih =>
    unfold storeFirst
    cases hpg : p g with
    | true =>
      cases i with
      | zero =>
        simp at hx
        subst hx
        rw [hp] at hpg
        exact Bool.noConfusion hpg
      | succ j =>
        simp at hx
        simpa using hx
    | false =>
      cases i with
      | zero =>
        simp at hx
        subst hx
        simp
      | succ j =>
        simp at hx
        simpa using ih j hx

theorem DocExtends_refl (w : WAF) : DocExtends w w :=
  ⟨ListExtends_refl _, ListExtends_refl _, rfl, rfl, rfl, rfl, rfl, rfl, rfl⟩

theorem DocExtends_trans {w w1 w2 : WAF} (h1 : DocExtends w w1) (h2 : DocExtends w1 w2) :
    DocExtends w w2 := by
  obtain ⟨a1, b1, c1, d1, e1, f1, g1, i1, j1⟩ := h1
  obtain ⟨a2, b2, c2, d2, e2, f2, g2, i2, j2⟩ := h2
  exact ⟨ListExtends_trans a1 a2, ListExtends_trans b1 b2, c2.trans c1, d2.trans d1, e2.trans e1, f2.trans f1,
    g2.trans g1, i2.trans i1, j2.trans j1⟩

theorem DocExtends_AddRuleGroup (w : WAF) (g : RuleGroup) : DocExtends w (w.AddRuleGroup g) := by
  unfold WAF.AddRuleGroup
  split
  · exact ⟨ListExtends_append _ _, ListExtends_refl _, rfl, rfl, rfl, rfl, rfl, rfl, rfl⟩
  · exact ⟨ListExtends_refl _, ListExtends_append _ _, rfl, rfl, rfl, rfl, rfl, rfl, rfl⟩

/-- `FindRuleGroupWithCode` returns the first inbound entry with the code, or, when no
inbound entry has it, the first outbound entry with the code. -/
theorem FindRuleGroupWithCode_some (w : WAF) (code : String) (old : RuleGroup)
    (h : w.FindRuleGroupWithCode code = some old) :
    code ≠ "" ∧
    ((w.Inbound.find? (fun group => group.Code == code) = some old) ∨
      (w.Inbound.find? (fun group => group.Code == code) = none ∧
        w.Outbound.find? (fun group => group.Code == code) = some old)) := by
  unfold WAF.FindRuleGroupWithCode at h
  split at h
  · exact Option.noConfusion h
  · rename_i hne
    refine ⟨?_, ?_⟩
    · intro hc
      apply hne
      rw [hc]
      rfl
    · split at h
      · rename_i g hg
        left
        rw [hg, h]
      · rename_i hg
        right
        exact ⟨hg, h⟩

theorem find?_none_any (p : RuleGroup → Bool) (l : List RuleGroup) (h : l.find? p = none) :
    l.any p = false := by
  induction l with
  | nil => rfl
  | cons g rest ih =>
    cases hp : p g with
    | true => simp [List.find?, hp] at h
    | false =>
      simp [List.find?, hp] at h
      simp only [List.any_cons, hp, Bool.false_or]
      exact ih (by simpa using h)

theorem find?_some_any (p : RuleGroup → Bool) (l : List RuleGroup) (x : RuleGroup)
    (h : l.find? p = some x) : l.any p = true := by
  induction l with
  | nil => simp at h
  | cons g rest ih =>
    cases hp : p g with
    | true => simp [hp]
    | false =>
      simp [List.find?, hp] at h
      simp only [List.any_cons, hp, Bool.false_or]
      exact ih h

theorem find?_some_pred (p : RuleGroup → Bool) (l : List RuleGroup) (x : RuleGroup)
    (h : l.find? p = some x) : p x = true := by
  induction l with
  | nil => simp at h
  | cons g rest ih =>
    cases hp : p g with
    | true =>
      simp [List.find?, hp] at h
      rw [← h]
      exact hp
    | false =>
      simp [List.find?, hp] at h
      exact ih h

theorem DocExtends_store (w : WAF) (code : String) (old new : RuleGroup)
    (hfind : w.FindRuleGroupWithCode code = some old) (hext : GroupExtends old new) :
    DocExtends w (w.storeRuleGroupWithCode code new) := by
  obtain ⟨_, h | ⟨hin, hout⟩⟩ := FindRuleGroupWithCode_some w code old hfind
  · unfold WAF.storeRuleGroupWithCode
    rw [find?_some_any _ _ _ h]
    exact ⟨ListExtends_storeFirst _ old new _ h hext, ListExtends_refl _,
      rfl, rfl, rfl, rfl, rfl, rfl, rfl⟩
  · unfold WAF.storeRuleGroupWithCode
    rw [find?_none_any _ _ hin]
    exact ⟨ListExtends_refl _, ListExtends_storeFirst _ old new _ hout hext,
      rfl, rfl, rfl, rfl, rfl, rfl, rfl⟩

theorem mergeRuleSets_extends (find : RuleGroup → String → Option RuleSet) (name : String)
    (sets : List RuleSet) (old : RuleGroup) (ch : List String) :
    GroupExtends old (mergeRuleSets find name sets old ch).1 := by
  induction sets generalizing old ch with
  | nil => exact GroupExtends_refl old
  | cons s rest ih =>
    unfold mergeRuleSets
    cases hf : find old s.Code with
    | none =>
      have h1 : GroupExtends old (old.AddRuleSet s) := ⟨[s], rfl⟩
      exact GroupExtends_trans h1 (ih _ _)
    | some t => exact ih _ _

theorem mergeGroups_extends (env : MergeEnv) (groups : List RuleGroup) (w : WAF) (n : Nat)
    (ch : List String) : DocExtends w (mergeGroups env groups w n ch).1 := by
  induction groups generalizing w n ch with
  | nil => exact DocExtends_refl w
  | cons g rest ih =>
    unfold mergeGroups
    cases hf : w.FindRuleGroupWithCode g.Code with
    | none => exact DocExtends_trans (DocExtends_AddRuleGroup w _) (ih _ _ _)
    | some old =>
      exact DocExtends_trans
        (DocExtends_store w g.Code old _ hf (mergeRuleSets_extends _ _ _ _ _)) (ih _ _ _)

/-! ## The template merge: claims C6 to C10 -/

/-- Everything `MergeTemplate` keeps: the result extends the document with the version
stamp set, or is the document itself on the early return. -/
theorem MergeTemplate_extends (env : MergeEnv) (w : WAF) :
    ListExtends w.Inbound (w.MergeTemplate env).1.Inbound ∧
    ListExtends w.Outbound (w.MergeTemplate env).1.Outbound ∧
    (w.MergeTemplate env).1.Id = w.Id ∧ (w.MergeTemplate env).1.On = w.On ∧
    (w.MergeTemplate env).1.Name = w.Name := by
  unfold WAF.MergeTemplate
  split
  · exact ⟨ListExtends_refl _, ListExtends_refl _, rfl, rfl, rfl⟩
  · obtain ⟨a, b, c, d, e, _⟩ :=
      mergeGroups_extends env (env.Template.Inbound ++ env.Template.Outbound)
        { w with CreatedVersion := env.TeaVersion } 0 []
    exact ⟨a, b, c, d, e⟩

/-- C6: after `MergeTemplate`, for every document and every template, the group at each
index of the original inbound list is still at that index of the new inbound list with
the same id, code, name and flags, and its rule sets are the original ones, unchanged
and in order, followed by zero or more appended sets; the same for the outbound list;
`Id`, `On` and `Name` of the document are unchanged.  (Adding a rule set appends it.) -/
theorem C6_merge_keeps_existing_content (env : MergeEnv) (w : WAF) :
    (∀ (i : Nat) (g : RuleGroup), w.Inbound[i]? = some g →
      ∃ more : List RuleSet,
        (w.MergeTemplate env).1.Inbound[i]? = some { g with RuleSets := g.RuleSets ++ more }) ∧
    (∀ (i : Nat) (g : RuleGroup), w.Outbound[i]? = some g →
      ∃ more : List RuleSet,
        (w.MergeTemplate env).1.Outbound[i]? = some { g with RuleSets := g.RuleSets ++ more }) ∧
    (w.MergeTemplate env).1.Id = w.Id ∧ (w.MergeTemplate env).1.On = w.On ∧
    (w.MergeTemplate env).1.Name = w.Name := by
  obtain ⟨a, b, c, d, e⟩ := MergeTemplate_extends env w
  refine ⟨?_, ?_, c, d, e⟩
  · intro i g hg
    obtain ⟨g1, hg1, more, hmore⟩ := a i g hg
    exact ⟨more, by rw [hg1, hmore]⟩
  · intro i g hg
    obtain ⟨g1, hg1, more, hmore⟩ := b i g hg
    exact ⟨more, by rw [hg1, hmore]⟩

/-- C6 at `exLoaded` and `exTemplate`: the group `sqli` stays at inbound index 0 with
its set `custom` first, and the user-authored outbound group stays at index 0 unchanged. -/
theorem C6_merge_keeps_existing_content_witness :
    (∃ more : List RuleSet, (exLoaded.MergeTemplate exMergeEnv).1.Inbound[0]? =
      some (exGroup "sqli" true true ([exSet "custom" "custom" "log"] ++ more))) ∧
    (∃ more : List RuleSet, (exLoaded.MergeTemplate exMergeEnv).1.Outbound[0]? =
      some (exUserGroup ([exSet "mine" "mine" "allow"] ++ more))) :=
  ⟨(C6_merge_keeps_existing_content exMergeEnv exLoaded).1 0
      (exGroup "sqli" true true [exSet "custom" "custom" "log"]) rfl,
    (C6_merge_keeps_existing_content exMergeEnv exLoaded).2.1 0
      (exUserGroup [exSet "mine" "mine" "allow"]) rfl⟩

theorem MergeTemplate_CreatedVersion (env : MergeEnv) (w : WAF) :
    (w.MergeTemplate env).1.CreatedVersion = env.TeaVersion := by
  unfold WAF.MergeTemplate
  split
  · rename_i h
    exact beq_iff_eq.mp h
  · obtain ⟨_, _, _, _, _, f, _⟩ :=
      mergeGroups_extends env (env.Template.Inbound ++ env.Template.Outbound)
        { w with CreatedVersion := env.TeaVersion } 0 []
    exact f

/-- C8: when `CreatedVersion` already equals the engine version, `MergeTemplate` returns
the empty change list and the document is exactly the one before the call: lists, rule
sets of every group, version stamp and all other fields. -/
theorem C8_merge_is_noop_at_engine_version (env : MergeEnv) (w : WAF)
    (h : w.CreatedVersion = env.TeaVersion) : w.MergeTemplate env = (w, []) := by
  unfold WAF.MergeTemplate
  rw [if_pos (beq_iff_eq.mpr h)]

/-- C8 at the document `exLoaded` restamped `1.0`: although the template holds groups the
document lacks, nothing is merged. -/
theorem C8_merge_is_noop_at_engine_version_witness :
    ({ exLoaded with CreatedVersion := "1.0" } : WAF).MergeTemplate exMergeEnv =
      (({ exLoaded with CreatedVersion := "1.0" } : WAF), []) :=
  C8_merge_is_noop_at_engine_version exMergeEnv { exLoaded with CreatedVersion := "1.0" } rfl

/-- C10: after `MergeTemplate` the `CreatedVersion` of every document equals the engine
version; hence a second `MergeTemplate` at the same engine version (whatever template
and random ids it would use) returns the empty change list and leaves the document as
the first merge left it. -/
theorem C10_merge_stamps_engine_version (env env2 : MergeEnv) (w : WAF)
    (h : env2.TeaVersion = env.TeaVersion) :
    (w.MergeTemplate env).1.CreatedVersion = env.TeaVersion ∧
    (w.MergeTemplate env).1.MergeTemplate env2 = ((w.MergeTemplate env).1, []) := by
  refine ⟨MergeTemplate_CreatedVersion env w, ?_⟩
  have hv : (w.MergeTemplate env).1.CreatedVersion = env2.TeaVersion := by
    rw [h]
    exact MergeTemplate_CreatedVersion env w
  generalize (w.MergeTemplate env).1 = w1 at hv
  unfold WAF.MergeTemplate
  rw [if_pos (beq_iff_eq.mpr hv)]

/-- C10 at `exLoaded`: merged once with `exMergeEnv` the document carries version `1.0`,
and a second merge, even against the different template of `exMergeEnv2`, changes
nothing. -/
theorem C10_merge_stamps_engine_version_witness :
    (exLoaded.MergeTemplate exMergeEnv).1.CreatedVersion = "1.0" ∧
    (exLoaded.MergeTemplate exMergeEnv).1.MergeTemplate exMergeEnv2 =
      ((exLoaded.MergeTemplate exMergeEnv).1, []) :=
  C10_merge_stamps_engine_version exMergeEnv exMergeEnv2 exLoaded rfl

theorem ContainsGroupCode_eq (w : WAF) (c : String) :
    w.ContainsGroupCode c =
      (!c.isEmpty && (w.Inbound.any (fun group => group.Code == c) ||
        w.Outbound.any (fun group => group.Code == c))) := by
  unfold WAF.ContainsGroupCode
  cases c.isEmpty <;> cases w.Inbound.any (fun group => group.Code == c) <;>
    cases w.Outbound.any (fun group => group.Code == c) <;> rfl

theorem FindRuleGroupWithCode_isSome (w : WAF) (c : String) :
    (w.FindRuleGroupWithCode c).isSome = w.ContainsGroupCode c := by
  rw [ContainsGroupCode_eq]
  unfold WAF.FindRuleGroupWithCode
  cases hc : c.isEmpty with
  | true => simp
  | false =>
    cases hin : w.Inbound.find? (fun group => group.Code == c) with
    | some x =>
      simp [find?_some_any _ _ _ hin]
    | none =>
      cases hout : w.Outbound.find? (fun group => group.Code == c) with
      | some y =>
        rw [find?_none_any _ _ hin, find?_some_any _ _ _ hout]
        simp
      | none =>
        rw [find?_none_any _ _ hin, find?_none_any _ _ hout]
        simp

theorem FindRuleGroupWithCode_none_iff (w : WAF) (c : String) :
    w.FindRuleGroupWithCode c = none ↔ w.ContainsGroupCode c = false := by
  rw [← FindRuleGroupWithCode_isSome]
  cases w.FindRuleGroupWithCode c <;> simp

theorem FindRuleGroupWithCode_code (w : WAF) (c : String) (x : RuleGroup)
    (h : w.FindRuleGroupWithCode c = some x) : x.Code = c := by
  obtain ⟨_, h1 | ⟨_, h2⟩⟩ := FindRuleGroupWithCode_some w c x h
  · simpa using find?_some_pred _ _ _ h1
  · simpa using find?_some_pred _ _ _ h2

theorem storeFirst_any (p q : RuleGroup → Bool) (old new : RuleGroup) (l : List RuleGroup)
    (hfind : l.find? p = some old) (hq : q new = q old) :
    (storeFirst p new l).any q = l.any q := by
  induction l with
  | nil => simp at hfind
  | cons g rest ih =>
    unfold storeFirst
    cases hp : p g with
    | true =>
      simp [List.find?, hp] at hfind
      subst hfind
      simp [hq]
    | false =>
      simp [List.find?, hp] at hfind
      simp [ih hfind]

theorem ContainsGroupCode_store (w : WAF) (code c : String) (old new : RuleGroup)
    (hfind : w.FindRuleGroupWithCode code = some old) (hcode : new.Code = old.Code) :
    (w.storeRuleGroupWithCode code new).ContainsGroupCode c = w.ContainsGroupCode c := by
  have hq : (fun group : RuleGroup => group.Code == c) new =
      (fun group : RuleGroup => group.Code == c) old := by
    simp [hcode]
  rw [ContainsGroupCode_eq, ContainsGroupCode_eq]
  obtain ⟨_, h | ⟨hin, hout⟩⟩ := FindRuleGroupWithCode_some w code old hfind
  · unfold WAF.storeRuleGroupWithCode
    rw [find?_some_any _ _ _ h]
    simp only [↓reduceIte]
    rw [storeFirst_any _ _ old new _ h hq]
  · unfold WAF.storeRuleGroupWithCode
    rw [find?_none_any _ _ hin]
    simp only [Bool.false_eq_true, ↓reduceIte]
    rw [storeFirst_any _ _ old new _ hout hq]

theorem ContainsGroupCode_AddRuleGroup (w : WAF) (x : RuleGroup) (c : String) :
    (w.AddRuleGroup x).ContainsGroupCode c =
      (w.ContainsGroupCode c || (!c.isEmpty && x.Code == c)) := by
  rw [ContainsGroupCode_eq, ContainsGroupCode_eq]
  unfold WAF.AddRuleGroup
  cases hx : x.IsInbound <;>
    simp only [Bool.false_eq_true, ↓reduceIte, List.any_append, List.any_cons, List.any_nil,
      Bool.or_false] <;>
    generalize w.Inbound.any (fun group => group.Code == c) = a <;>
    generalize w.Outbound.any (fun group => group.Code == c) = b <;>
    generalize (x.Code == c) = d <;>
    cases c.isEmpty <;> cases a <;> cases b <;> cases d <;> rfl

theorem mergeGroups_contains_mono (env : MergeEnv) (groups : List RuleGroup) (w : WAF)
    (n : Nat) (ch : List String) (c : String) (h : w.ContainsGroupCode c = true) :
    (mergeGroups env groups w n ch).1.ContainsGroupCode c = true := by
  induction groups generalizing w n ch with
  | nil => exact h
  | cons g rest ih =>
    unfold mergeGroups
    cases hf : w.FindRuleGroupWithCode g.Code with
    | none =>
      apply ih
      rw [ContainsGroupCode_AddRuleGroup, h]
      rfl
    | some old =>
      apply ih
      rw [ContainsGroupCode_store w g.Code c old _ hf
        (GroupExtends_code_eq (mergeRuleSets_extends _ _ _ _ _))]
      exact h

theorem mergeGroups_contains_template (env : MergeEnv) (groups : List RuleGroup) (w : WAF)
    (n : Nat) (ch : List String) (g : RuleGroup) (hg : g ∈ groups)
    (hne : g.Code.isEmpty = false) :
    (mergeGroups env groups w n ch).1.ContainsGroupCode g.Code = true := by
  induction groups generalizing w n ch with
  | nil => simp at hg
  | cons t rest ih =>
    rcases List.mem_cons.mp hg with heq | hmem
    · subst heq
      unfold mergeGroups
      cases hf : w.FindRuleGroupWithCode g.Code with
      | none =>
        apply mergeGroups_contains_mono
        rw [ContainsGroupCode_AddRuleGroup]
        simp [hne]
      | some old =>
        apply mergeGroups_contains_mono
        rw [ContainsGroupCode_store w g.Code g.Code old _ hf
          (GroupExtends_code_eq (mergeRuleSets_extends _ _ _ _ _)), ← FindRuleGroupWithCode_isSome, hf]
        rfl
    · unfold mergeGroups
      cases hf : w.FindRuleGroupWithCode t.Code with
      | none => exact ih _ _ _ hmem
      | some old => exact ih _ _ _ hmem

theorem FindRuleGroupWithCode_of_isEmpty (w : WAF) (c : String) (h : c.isEmpty = true) :
    w.FindRuleGroupWithCode c = none := by
  unfold WAF.FindRuleGroupWithCode
  rw [if_pos h]

theorem ListExtends_length_le {l l1 : List RuleGroup} (h : ListExtends l l1) :
    l.length ≤ l1.length := by
  by_contra hcon
  have hlt : l1.length < l.length := Nat.lt_of_not_le hcon
  obtain ⟨x1, hx1, _⟩ := h l1.length (l.get ⟨l1.length, hlt⟩) (List.getElem?_eq_getElem hlt)
  rw [List.getElem?_eq_none (Nat.le_refl _)] at hx1
  exact Option.noConfusion hx1

theorem DocExtends_groupsOf {w w1 : WAF} (h : DocExtends w w1) (d : Bool) :
    ListExtends (w.groupsOf d) (w1.groupsOf d) := by
  cases d
  · exact h.2.1
  · exact h.1

theorem groupsOf_AddRuleGroup_keeps (w : WAF) (y : RuleGroup) (d : Bool) (i : Nat)
    (x : RuleGroup) (hx : (w.groupsOf d)[i]? = some x) :
    ((w.AddRuleGroup y).groupsOf d)[i]? = some x := by
  obtain ⟨x1, hx1, more, hmore⟩ := DocExtends_groupsOf (DocExtends_AddRuleGroup w y) d i x hx
  have hrefl : (w.AddRuleGroup y).groupsOf d = w.groupsOf d ∨
      (w.AddRuleGroup y).groupsOf d = w.groupsOf d ++ [y] := by
    unfold WAF.AddRuleGroup WAF.groupsOf
    cases d <;> cases y.IsInbound <;> simp
  rcases hrefl with h | h
  · rw [h]
    exact hx
  · rw [h]
    have hi : i < (w.groupsOf d).length := by
      by_contra hcon
      rw [List.getElem?_eq_none (Nat.le_of_not_lt hcon)] at hx
      exact Option.noConfusion hx
    rw [List.getElem?_append_left hi]
    exact hx

theorem groupsOf_AddRuleGroup_last (w : WAF) (y : RuleGroup) :
    ((w.AddRuleGroup y).groupsOf y.IsInbound)[(w.groupsOf y.IsInbound).length]? = some y := by
  unfold WAF.AddRuleGroup WAF.groupsOf
  cases y.IsInbound <;> simp

theorem groupsOf_store_keeps (w : WAF) (code : String) (new : RuleGroup) (d : Bool) (i : Nat)
    (x : RuleGroup) (hx : (w.groupsOf d)[i]? = some x) (hcode : (x.Code == code) = false) :
    ((w.storeRuleGroupWithCode code new).groupsOf d)[i]? = some x := by
  unfold WAF.storeRuleGroupWithCode
  cases d with
  | true =>
    have hx1 : w.Inbound[i]? = some x := hx
    split
    · exact storeFirst_keeps (fun group => group.Code == code) new w.Inbound i x hx1 hcode
    · exact hx1
  | false =>
    have hx1 : w.Outbound[i]? = some x := hx
    split
    · exact hx1
    · exact storeFirst_keeps (fun group => group.Code == code) new w.Outbound i x hx1 hcode

theorem mergeGroups_keeps (env : MergeEnv) (groups : List RuleGroup) (w : WAF) (n : Nat)
    (ch : List String) (d : Bool) (i : Nat) (x : RuleGroup)
    (hx : (w.groupsOf d)[i]? = some x)
    (hfree : ∀ h ∈ groups, h.Code = x.Code → x.Code.isEmpty = true) :
    ((mergeGroups env groups w n ch).1.groupsOf d)[i]? = some x := by
  induction groups generalizing w n ch with
  | nil => exact hx
  | cons g rest ih =>
    have hrest : ∀ h ∈ rest, h.Code = x.Code → x.Code.isEmpty = true :=
      fun h hh => hfree h (List.mem_cons_of_mem _ hh)
    unfold mergeGroups
    cases hf : w.FindRuleGroupWithCode g.Code with
    | none => exact ih _ _ _ (groupsOf_AddRuleGroup_keeps w _ d i x hx) hrest
    | some old =>
      apply ih _ _ _ _ hrest
      apply groupsOf_store_keeps w g.Code _ d i x hx
      cases hc : (x.Code == g.Code) with
      | false => rfl
      | true =>
        have hxc : x.Code = g.Code := by simpa using hc
        have hempty := hfree g (List.mem_cons_self _ _) hxc.symm
        rw [hxc] at hempty
        rw [FindRuleGroupWithCode_of_isEmpty w g.Code hempty] at hf
        exact Option.noConfusion hf

theorem mergeGroups_cons_none (env : MergeEnv) (g : RuleGroup) (rest : List RuleGroup)
    (w : WAF) (n : Nat) (ch : List String) (hf : w.FindRuleGroupWithCode g.Code = none) :
    mergeGroups env (g :: rest) w n ch =
      mergeGroups env rest (w.AddRuleGroup { g with Id := env.Rand n }) (n + 1)
        (ch ++ ["+group " ++ g.Name]) := by
  rw [mergeGroups, hf]

theorem mergeGroups_cons_some (env : MergeEnv) (g : RuleGroup) (rest : List RuleGroup)
    (w : WAF) (n : Nat) (ch : List String) (old : RuleGroup)
    (hf : w.FindRuleGroupWithCode g.Code = some old) :
    mergeGroups env (g :: rest) w n ch =
      mergeGroups env rest
        (w.storeRuleGroupWithCode g.Code
          (mergeRuleSets env.FindRuleSetWithCode g.Name g.RuleSets old ch).1) n
        (mergeRuleSets env.FindRuleSetWithCode g.Name g.RuleSets old ch).2 := by
  rw [mergeGroups, hf]

theorem mergeGroups_split (env : MergeEnv) (pre rest : List RuleGroup) (w : WAF) (n : Nat)
    (ch : List String) (c : String) (habs : w.ContainsGroupCode c = false)
    (hpre : ∀ h ∈ pre, h.Code = c → c.isEmpty = true) :
    ∃ (w1 : WAF) (n1 : Nat) (ch1 : List String),
      mergeGroups env (pre ++ rest) w n ch = mergeGroups env rest w1 n1 ch1 ∧
      DocExtends w w1 ∧ w1.ContainsGroupCode c = false := by
  induction pre generalizing w n ch with
  | nil => exact ⟨w, n, ch, rfl, DocExtends_refl w, habs⟩
  | cons g pre ih =>
    have hpre1 : ∀ h ∈ pre, h.Code = c → c.isEmpty = true :=
      fun h hh => hpre h (List.mem_cons_of_mem _ hh)
    rw [List.cons_append]
    cases hf : w.FindRuleGroupWithCode g.Code with
    | none =>
      rw [mergeGroups_cons_none env g _ w n ch hf]
      have habs1 : (w.AddRuleGroup { g with Id := env.Rand n }).ContainsGroupCode c = false := by
        rw [ContainsGroupCode_AddRuleGroup, habs]
        cases hce : c.isEmpty with
        | true => rfl
        | false =>
          cases hgc : (g.Code == c) with
          | false => simp [hgc]
          | true =>
            have h1 := hpre g (List.mem_cons_self _ _) (by simpa using hgc)
            rw [hce] at h1
            exact Bool.noConfusion h1
      obtain ⟨w1, n1, ch1, e1, d1, a1⟩ := ih _ (n + 1) (ch ++ ["+group " ++ g.Name]) habs1 hpre1
      exact ⟨w1, n1, ch1, e1, DocExtends_trans (DocExtends_AddRuleGroup w _) d1, a1⟩
    | some old =>
      rw [mergeGroups_cons_some env g _ w n ch old hf]
      have hext := mergeRuleSets_extends env.FindRuleSetWithCode g.Name g.RuleSets old ch
      have habs1 : (w.storeRuleGroupWithCode g.Code
          (mergeRuleSets env.FindRuleSetWithCode g.Name g.RuleSets old ch).1).ContainsGroupCode c
          = false := by
        rw [ContainsGroupCode_store w g.Code c old _ hf (GroupExtends_code_eq hext)]
        exact habs
      obtain ⟨w1, n1, ch1, e1, d1, a1⟩ := ih _ n _ habs1 hpre1
      exact ⟨w1, n1, ch1, e1, DocExtends_trans (DocExtends_store w g.Code old _ hf hext) d1, a1⟩

/-- What a merge does with the template groups, for any template: for a document whose
`CreatedVersion` differs from the engine version, after `MergeTemplate` (1) every
non-empty group code of the template is present; (2) a template group `g` whose code
was absent before the merge and is carried by no earlier template group stands in the
list of its direction, behind the original entries, under a fresh id and with its rule
sets first; when no later template group carries its code either, it holds exactly its
own rule sets. -/
theorem MergeTemplate_template_groups (env : MergeEnv) (w : WAF)
    (hv : w.CreatedVersion ≠ env.TeaVersion) :
    (∀ g ∈ env.Template.Inbound ++ env.Template.Outbound, g.Code.isEmpty = false →
      (w.MergeTemplate env).1.ContainsGroupCode g.Code = true ∧
      ∃ x, (w.MergeTemplate env).1.FindRuleGroupWithCode g.Code = some x ∧ x.Code = g.Code) ∧
    (∀ (pre post : List RuleGroup) (g : RuleGroup),
      env.Template.Inbound ++ env.Template.Outbound = pre ++ g :: post →
      w.ContainsGroupCode g.Code = false →
      (∀ h ∈ pre, h.Code = g.Code → g.Code.isEmpty = true) →
      ∃ (i k : Nat) (more : List RuleSet),
        (w.groupsOf g.IsInbound).length ≤ i ∧
        ((w.MergeTemplate env).1.groupsOf g.IsInbound)[i]? =
          some { g with Id := env.Rand k, RuleSets := g.RuleSets ++ more } ∧
        ((∀ h ∈ post, h.Code = g.Code → g.Code.isEmpty = true) → more = [])) := by
  have hne : (w.CreatedVersion == env.TeaVersion) = false := by
    cases hb : (w.CreatedVersion == env.TeaVersion) with
    | false => rfl
    | true => exact absurd (beq_iff_eq.mp hb) hv
  have hmerge : w.MergeTemplate env =
      mergeGroups env (env.Template.Inbound ++ env.Template.Outbound)
        { w with CreatedVersion := env.TeaVersion } 0 [] := by
    unfold WAF.MergeTemplate
    rw [hne]
    rfl
  constructor
  · intro g hg hcode
    have hc : (w.MergeTemplate env).1.ContainsGroupCode g.Code = true := by
      rw [hmerge]
      exact mergeGroups_contains_template env _ _ 0 [] g hg hcode
    refine ⟨hc, ?_⟩
    cases hf : (w.MergeTemplate env).1.FindRuleGroupWithCode g.Code with
    | none =>
      rw [(FindRuleGroupWithCode_none_iff _ _).mp hf] at hc
      exact Bool.noConfusion hc
    | some x => exact ⟨x, rfl, FindRuleGroupWithCode_code _ _ x hf⟩
  · intro pre post g hsplit habs hpre
    rw [hmerge, hsplit]
    obtain ⟨w1, n1, ch1, e1, d1, a1⟩ :=
      mergeGroups_split env pre (g :: post) { w with CreatedVersion := env.TeaVersion } 0 []
        g.Code habs hpre
    rw [e1, mergeGroups_cons_none env g post w1 n1 ch1
      ((FindRuleGroupWithCode_none_iff _ _).mpr a1)]
    have hlen : (w.groupsOf g.IsInbound).length ≤ (w1.groupsOf g.IsInbound).length :=
      ListExtends_length_le (DocExtends_groupsOf d1 g.IsInbound)
    have hlast := groupsOf_AddRuleGroup_last w1 { g with Id := env.Rand n1 }
    by_cases hpost : ∀ h ∈ post, h.Code = g.Code → g.Code.isEmpty = true
    · refine ⟨(w1.groupsOf g.IsInbound).length, n1, [], hlen, ?_, fun _ => rfl⟩
      have hk := mergeGroups_keeps env post (w1.AddRuleGroup { g with Id := env.Rand n1 })
        (n1 + 1) (ch1 ++ ["+group " ++ g.Name]) g.IsInbound _ _ hlast hpost
      rw [hk]
      simp
    · obtain ⟨x1, hx1, more, hmore⟩ :=
        DocExtends_groupsOf (mergeGroups_extends env post
          (w1.AddRuleGroup { g with Id := env.Rand n1 }) (n1 + 1)
          (ch1 ++ ["+group " ++ g.Name])) g.IsInbound _ _ hlast
      refine ⟨(w1.groupsOf g.IsInbound).length, n1, more, hlen, ?_, fun h => absurd h hpost⟩
      rw [hx1, hmore]

/-- C7: for a document whose `CreatedVersion` differs from the engine version, after
`MergeTemplate` every non-empty group code of the template is present in the document:
`ContainsGroupCode` is true and `FindRuleGroupWithCode` returns a group with that code.
And, the template being a document whose group codes are unique when present, every
template group whose code was absent before the merge has been appended: it stands in
the list of its direction, behind the original entries, under a fresh id and with
exactly its rule sets. -/
theorem C7_template_codes_present (env : MergeEnv) (w : WAF)
    (hv : w.CreatedVersion ≠ env.TeaVersion) :
    (∀ g ∈ env.Template.Inbound ++ env.Template.Outbound, g.Code.isEmpty = false →
      (w.MergeTemplate env).1.ContainsGroupCode g.Code = true ∧
      ∃ x, (w.MergeTemplate env).1.FindRuleGroupWithCode g.Code = some x ∧ x.Code = g.Code) ∧
    (UniqueCodes env.Template →
      ∀ g ∈ env.Template.Inbound ++ env.Template.Outbound,
        w.ContainsGroupCode g.Code = false →
        ∃ (i k : Nat), (w.groupsOf g.IsInbound).length ≤ i ∧
          ((w.MergeTemplate env).1.groupsOf g.IsInbound)[i]? =
            some { g with Id := env.Rand k }) := by
  obtain ⟨h1, h2⟩ := MergeTemplate_template_groups env w hv
  refine ⟨h1, ?_⟩
  intro hT g hg habs
  obtain ⟨pre, post, hsplit⟩ := List.append_of_mem hg
  have hT1 : ((pre ++ g :: post).map (fun group => group.Code)).Pairwise
      (fun a b => a = b → a.isEmpty = true) := by
    rw [← hsplit]
    exact hT
  rw [List.map_append, List.map_cons, List.pairwise_append, List.pairwise_cons] at hT1
  obtain ⟨_, ⟨hpost, _⟩, hpre⟩ := hT1
  have hpre1 : ∀ h ∈ pre, h.Code = g.Code → g.Code.isEmpty = true := by
    intro h hh heq
    have h3 := hpre h.Code (List.mem_map_of_mem _ hh) g.Code (List.mem_cons_self _ _) heq
    rw [heq] at h3
    exact h3
  have hpost1 : ∀ h ∈ post, h.Code = g.Code → g.Code.isEmpty = true := by
    intro h hh heq
    exact hpost h.Code (List.mem_map_of_mem _ hh) heq.symm
  obtain ⟨i, k, more, hi, hget, hmore⟩ := h2 pre post g hsplit habs hpre1
  have hnil := hmore hpost1
  subst hnil
  refine ⟨i, k, hi, ?_⟩
  rw [hget]
  simp

/-- C7 at `exLoaded` and `exTemplate`, whose group codes `xss`, `sqli`, `leak` are
unique: the code `sqli` is found after the merge; the template groups `xss` and `leak`,
absent before, have been appended to the inbound and to the outbound list as they are
in the template, under fresh ids. -/
theorem C7_template_codes_present_witness :
    ((exLoaded.MergeTemplate exMergeEnv).1.ContainsGroupCode "sqli" = true ∧
      ∃ x, (exLoaded.MergeTemplate exMergeEnv).1.FindRuleGroupWithCode "sqli" = some x ∧
        x.Code = "sqli") ∧
    (∃ (i k : Nat), (exLoaded.groupsOf true).length ≤ i ∧
      ((exLoaded.MergeTemplate exMergeEnv).1.groupsOf true)[i]? =
        some { Id := exRand k, Code := "xss", Name := "xss", On := true, IsInbound := true,
               RuleSets := [exSet "script" "script" "block"] }) ∧
    (∃ (i k : Nat), (exLoaded.groupsOf false).length ≤ i ∧
      ((exLoaded.MergeTemplate exMergeEnv).1.groupsOf false)[i]? =
        some { Id := exRand k, Code := "leak", Name := "leak", On := true, IsInbound := false,
               RuleSets := [exSet "php" "php" "tag"] }) :=
  ⟨(C7_template_codes_present exMergeEnv exLoaded (by decide)).1
      (exGroup "sqli" true true [exSet "union" "union" "block"]) (by decide) (by decide),
    (C7_template_codes_present exMergeEnv exLoaded (by decide)).2 (by decide)
      (exGroup "xss" true true [exSet "script" "script" "block"]) (by decide) (by decide),
    (C7_template_codes_present exMergeEnv exLoaded (by decide)).2 (by decide)
      (exGroup "leak" true false [exSet "php" "php" "tag"]) (by decide) (by decide)⟩

theorem replay_append (rand : Nat → String) (a b : List Change) (st st1 : WAF × Nat)
    (h : replay rand a st = some st1) : replay rand (a ++ b) st = replay rand b st1 := by
  induction a generalizing st with
  | nil =>
    simp [replay] at h
    subst h
    rfl
  | cons c rest ih =>
    rw [List.cons_append]
    cases hc : c.apply rand st with
    | none => simp [replay, hc] at h
    | some st2 =>
      have h2 : replay rand rest st2 = some st1 := by
        simpa [replay, hc] using h
      have e : replay rand (c :: (rest ++ b)) st = replay rand (rest ++ b) st2 := by
        simp [replay, hc]
      rw [e]
      exact ih st2 h2

theorem storeFirst_self (p : RuleGroup → Bool) (old : RuleGroup) (l : List RuleGroup)
    (h : l.find? p = some old) : storeFirst p old l = l := by
  induction l with
  | nil => rfl
  | cons g rest ih =>
    unfold storeFirst
    cases hp : p g with
    | true =>
      simp [List.find?, hp] at h
      simp [h]
    | false =>
      simp [List.find?, hp] at h
      simp [ih h]

theorem storeFirst_storeFirst (p : RuleGroup → Bool) (a b : RuleGroup) (l : List RuleGroup)
    (ha : p a = true) : storeFirst p b (storeFirst p a l) = storeFirst p b l := by
  induction l with
  | nil => rfl
  | cons g rest ih =>
    cases hp : p g with
    | true => simp [storeFirst, hp, ha]
    | false => simp [storeFirst, hp, ih]

theorem storeFirst_find (p : RuleGroup → Bool) (old new : RuleGroup) (l : List RuleGroup)
    (h : l.find? p = some old) (hn : p new = true) :
    (storeFirst p new l).find? p = some new := by
  induction l with
  | nil => simp at h
  | cons g rest ih =>
    cases hp : p g with
    | true => simp [storeFirst, hp, hn]
    | false =>
      simp [List.find?, hp] at h
      simp [storeFirst, hp, ih h]

theorem storeFirst_find_none (p : RuleGroup → Bool) (new : RuleGroup) (l : List RuleGroup)
    (h : l.find? p = none) : (storeFirst p new l).find? p = none := by
  rw [storeFirst_of_find_none p new l h]
  exact h

theorem storeFirst_any_self (p : RuleGroup → Bool) (a : RuleGroup) (l : List RuleGroup)
    (ha : p a = true) : (storeFirst p a l).any p = l.any p := by
  induction l with
  | nil => rfl
  | cons g rest ih =>
    cases hp : p g with
    | true => simp [storeFirst, hp, ha]
    | false => simp [storeFirst, hp, ih]

theorem store_self (w : WAF) (code : String) (old : RuleGroup)
    (hfind : w.FindRuleGroupWithCode code = some old) :
    w.storeRuleGroupWithCode code old = w := by
  obtain ⟨_, h | ⟨hin, hout⟩⟩ := FindRuleGroupWithCode_some w code old hfind
  · unfold WAF.storeRuleGroupWithCode
    rw [find?_some_any _ _ _ h, if_pos rfl, storeFirst_self _ _ _ h]
  · unfold WAF.storeRuleGroupWithCode
    rw [find?_none_any _ _ hin, storeFirst_self _ _ _ hout]
    rfl

theorem store_store (w : WAF) (code : String) (a b : RuleGroup) (ha : a.Code = code) :
    (w.storeRuleGroupWithCode code a).storeRuleGroupWithCode code b =
      w.storeRuleGroupWithCode code b := by
  have hpa : (fun group : RuleGroup => group.Code == code) a = true := by simp [ha]
  unfold WAF.storeRuleGroupWithCode
  cases hany : w.Inbound.any (fun group => group.Code == code) with
  | true =>
    simp only [↓reduceIte]
    rw [storeFirst_any_self _ a _ hpa, hany]
    simp only [↓reduceIte]
    rw [storeFirst_storeFirst _ a b _ hpa]
  | false =>
    simp only [Bool.false_eq_true, ↓reduceIte]
    rw [hany]
    simp only [Bool.false_eq_true, ↓reduceIte]
    rw [storeFirst_storeFirst _ a b _ hpa]

theorem Find_store (w : WAF) (code : String) (old new : RuleGroup)
    (hfind : w.FindRuleGroupWithCode code = some old) (hn : new.Code = code) :
    (w.storeRuleGroupWithCode code new).FindRuleGroupWithCode code = some new := by
  have hpn : (fun group : RuleGroup => group.Code == code) new = true := by simp [hn]
  have hne : code.isEmpty = false := by
    cases hc : code.isEmpty with
    | false => rfl
    | true =>
      rw [FindRuleGroupWithCode_of_isEmpty w code hc] at hfind
      exact Option.noConfusion hfind
  obtain ⟨_, h | ⟨hin, hout⟩⟩ := FindRuleGroupWithCode_some w code old hfind
  · unfold WAF.storeRuleGroupWithCode WAF.FindRuleGroupWithCode
    rw [find?_some_any _ _ _ h]
    simp only [↓reduceIte, hne, Bool.false_eq_true]
    rw [storeFirst_find _ old new _ h hpn]
  · unfold WAF.storeRuleGroupWithCode WAF.FindRuleGroupWithCode
    rw [find?_none_any _ _ hin]
    simp only [↓reduceIte, hne, Bool.false_eq_true]
    rw [hin, storeFirst_find _ old new _ hout hpn]

theorem replay_addSets (rand : Nat → String) (g : RuleGroup) (added : List RuleSet)
    (old : RuleGroup) (w : WAF) (n : Nat)
    (hfind : w.FindRuleGroupWithCode g.Code = some old) :
    replay rand (added.map (Change.addSet g)) (w, n) =
      some (w.storeRuleGroupWithCode g.Code { old with RuleSets := old.RuleSets ++ added }, n) := by
  induction added generalizing old w with
  | nil =>
    have e : ({ old with RuleSets := old.RuleSets ++ [] } : RuleGroup) = old := by simp
    rw [e, store_self w g.Code old hfind]
    rfl
  | cons s rest ih =>
    have hcode : old.Code = g.Code := FindRuleGroupWithCode_code w g.Code old hfind
    have hstep : Change.apply rand (Change.addSet g s) (w, n) =
        some (w.storeRuleGroupWithCode g.Code (old.AddRuleSet s), n) := by
      simp [Change.apply, hfind]
    have hfind1 : (w.storeRuleGroupWithCode g.Code (old.AddRuleSet s)).FindRuleGroupWithCode
        g.Code = some (old.AddRuleSet s) := Find_store w g.Code old _ hfind hcode
    have h1 := ih (old.AddRuleSet s) (w.storeRuleGroupWithCode g.Code (old.AddRuleSet s)) hfind1
    rw [store_store w g.Code (old.AddRuleSet s) _ hcode] at h1
    rw [List.map_cons]
    unfold replay
    rw [hstep]
    simp only
    rw [h1]
    simp [RuleGroup.AddRuleSet]

theorem mergeRuleSets_log (find : RuleGroup → String → Option RuleSet) (g : RuleGroup)
    (sets : List RuleSet) (old : RuleGroup) (ch : List String) :
    ∃ added : List RuleSet, List.Sublist added sets ∧
      (mergeRuleSets find g.Name sets old ch).2 =
        ch ++ (added.map (Change.addSet g)).map Change.render ∧
      (mergeRuleSets find g.Name sets old ch).1 =
        { old with RuleSets := old.RuleSets ++ added } := by
  induction sets generalizing old ch with
  | nil => exact ⟨[], List.Sublist.refl _, by simp [mergeRuleSets], by simp [mergeRuleSets]⟩
  | cons s rest ih =>
    unfold mergeRuleSets
    cases hf : find old s.Code with
    | none =>
      obtain ⟨added, hsub, hch, hgrp⟩ := ih (old.AddRuleSet s)
        (ch ++ ["+group " ++ g.Name ++ " rule set:" ++ s.Name])
      refine ⟨s :: added, hsub.cons₂ s, ?_, ?_⟩
      · simp only [hch]
        simp [Change.render]
      · simp only [hgrp]
        simp [RuleGroup.AddRuleSet]
    | some t =>
      obtain ⟨added, hsub, hch, hgrp⟩ := ih old ch
      exact ⟨added, hsub.cons s, hch, hgrp⟩

theorem mergeGroups_log (env : MergeEnv) (groups : List RuleGroup) (w : WAF) (n : Nat)
    (ch : List String) :
    ∃ (segs : List (List Change)) (n1 : Nat),
      List.Forall₂ SegmentOf groups segs ∧
      replay env.Rand segs.flatten (w, n) = some ((mergeGroups env groups w n ch).1, n1) ∧
      (mergeGroups env groups w n ch).2 = ch ++ segs.flatten.map Change.render := by
  induction groups generalizing w n ch with
  | nil => exact ⟨[], n, List.Forall₂.nil, rfl, by simp [mergeGroups]⟩
  | cons g rest ih =>
    cases hf : w.FindRuleGroupWithCode g.Code with
    | none =>
      rw [mergeGroups_cons_none env g rest w n ch hf]
      obtain ⟨segs, n1, hseg, hrep, hch⟩ :=
        ih (w.AddRuleGroup { g with Id := env.Rand n }) (n + 1) (ch ++ ["+group " ++ g.Name])
      refine ⟨[Change.addGroup g] :: segs, n1, List.Forall₂.cons (Or.inl rfl) hseg, ?_, ?_⟩
      · rw [List.flatten_cons]
        have h1 : replay env.Rand [Change.addGroup g] (w, n) =
            some (w.AddRuleGroup { g with Id := env.Rand n }, n + 1) := rfl
        rw [replay_append env.Rand _ _ _ _ h1]
        exact hrep
      · rw [hch]
        simp [Change.render]
    | some old =>
      rw [mergeGroups_cons_some env g rest w n ch old hf]
      obtain ⟨added, hsub, hch0, hgrp⟩ :=
        mergeRuleSets_log env.FindRuleSetWithCode g g.RuleSets old ch
      obtain ⟨segs, n1, hseg, hrep, hch⟩ :=
        ih (w.storeRuleGroupWithCode g.Code
            (mergeRuleSets env.FindRuleSetWithCode g.Name g.RuleSets old ch).1) n
          (mergeRuleSets env.FindRuleSetWithCode g.Name g.RuleSets old ch).2
      refine ⟨added.map (Change.addSet g) :: segs, n1,
        List.Forall₂.cons (Or.inr ⟨added, hsub, rfl⟩) hseg, ?_, ?_⟩
      · rw [List.flatten_cons]
        have h1 := replay_addSets env.Rand g added old w n hf
        rw [← hgrp] at h1
        rw [replay_append env.Rand _ _ _ _ h1]
        exact hrep
      · rw [hch, hch0]
        simp

/-- C9 as stated fails on the form of the rule-set entries: merging `exTemplate` into
`exLoaded` appends the set `union` to the present group `sqli`, and the entry returned
for it is `+group sqli rule set:union`, without a space after the colon; the entry
`+group sqli rule set: union` is not in the change list. -/
theorem C9_entry_format_counterexample :
    (exLoaded.MergeTemplate exMergeEnv).1.Inbound[0]? =
      some (exGroup "sqli" true true
        [exSet "custom" "custom" "log", exSet "union" "union" "block"]) ∧
    (exLoaded.MergeTemplate exMergeEnv).2 =
      ["+group xss", "+group sqli rule set:union", "+group leak"] ∧
    "+group sqli rule set: union" ∉ (exLoaded.MergeTemplate exMergeEnv).2 := by
  refine ⟨by decide, by decide, by decide⟩

/-- C9, amended: when `CreatedVersion` equals the engine version the change list is
empty.  Otherwise the change list is, in template order (inbound template groups, then
outbound ones), the rendering of the appends the merge made: for each template group
either the one entry `+group X` for the appended group, or one entry
`+group X rule set:Y` (no space after the colon) for each set `Y` appended to the
present group, in the order of the sets.  Carrying out exactly these appends on the
stamped document yields the merged document, so every entry stands for one append and
every append has its entry. -/
theorem C9_change_list_records_appends (env : MergeEnv) (w : WAF) :
    (w.CreatedVersion = env.TeaVersion → (w.MergeTemplate env).2 = []) ∧
    (w.CreatedVersion ≠ env.TeaVersion →
      ∃ (segs : List (List Change)) (n : Nat),
        List.Forall₂ SegmentOf (env.Template.Inbound ++ env.Template.Outbound) segs ∧
        replay env.Rand segs.flatten ({ w with CreatedVersion := env.TeaVersion }, 0) =
          some ((w.MergeTemplate env).1, n) ∧
        (w.MergeTemplate env).2 = segs.flatten.map Change.render) := by
  constructor
  · intro h
    unfold WAF.MergeTemplate
    rw [if_pos (beq_iff_eq.mpr h)]
  · intro hv
    have hne : (w.CreatedVersion == env.TeaVersion) = false := by
      cases hb : (w.CreatedVersion == env.TeaVersion) with
      | false => rfl
      | true => exact absurd (beq_iff_eq.mp hb) hv
    have hmerge : w.MergeTemplate env =
        mergeGroups env (env.Template.Inbound ++ env.Template.Outbound)
          { w with CreatedVersion := env.TeaVersion } 0 [] := by
      unfold WAF.MergeTemplate
      rw [hne]
      rfl
    obtain ⟨segs, n, hseg, hrep, hch⟩ :=
      mergeGroups_log env (env.Template.Inbound ++ env.Template.Outbound)
        { w with CreatedVersion := env.TeaVersion } 0 []
    rw [hmerge]
    exact ⟨segs, n, hseg, hrep, by simpa using hch⟩

/-- C9 (amended) at `exLoaded` and `exTemplate`, whose versions differ. -/
theorem C9_change_list_records_appends_witness :
    ∃ (segs : List (List Change)) (n : Nat),
      List.Forall₂ SegmentOf (exTemplate.Inbound ++ exTemplate.Outbound) segs ∧
      replay exRand segs.flatten ({ exLoaded with CreatedVersion := "1.0" }, 0) =
        some ((exLoaded.MergeTemplate exMergeEnv).1, n) ∧
      (exLoaded.MergeTemplate exMergeEnv).2 = segs.flatten.map Change.render :=
  (C9_change_list_records_appends exMergeEnv exLoaded).2 (by decide)

/-! ## Version stamp, moving, saving: claims C11 to C13 -/

/-- C11 as stated fails: the engine `1.0` merging into the document `exNewer`, stamped
`2.0`, sets its `CreatedVersion` to `1.0`, which is below `2.0` in the version order. -/
theorem C11_version_decreases_counterexample :
    exNewer.CreatedVersion = "2.0" ∧
    (exNewer.MergeTemplate exMergeEnv).1.CreatedVersion = "1.0" ∧
    versionLe exNewer.CreatedVersion (exNewer.MergeTemplate exMergeEnv).1.CreatedVersion
      = false ∧
    versionLe (exNewer.MergeTemplate exMergeEnv).1.CreatedVersion exNewer.CreatedVersion
      = true := by
  refine ⟨by decide, by decide, by decide, by decide⟩

/-- C11, amended: for every document and every engine version, `CreatedVersion` after
`MergeTemplate` equals the engine version, whatever it was before; so it is greater than
or equal to the `CreatedVersion` before exactly when the engine version is. -/
theorem C11_version_follows_engine (env : MergeEnv) (w : WAF) :
    (w.MergeTemplate env).1.CreatedVersion = env.TeaVersion ∧
    (versionLe w.CreatedVersion (w.MergeTemplate env).1.CreatedVersion = true ↔
      versionLe w.CreatedVersion env.TeaVersion = true) := by
  have h := MergeTemplate_CreatedVersion env w
  exact ⟨h, by rw [h]⟩

theorem moveRuleGroup_noop (groups : List RuleGroup) (fromIndex toIndex : Int)
    (h : fromIndex = toIndex ∨ fromIndex < 0 ∨ (groups.length : Int) ≤ fromIndex ∨
      toIndex < 0 ∨ (groups.length : Int) ≤ toIndex) :
    moveRuleGroup groups fromIndex toIndex = groups := by
  unfold moveRuleGroup
  split
  · rfl
  · split
    · rfl
    · split
      · rfl
      · rename_i h1 h2 h3
        rcases h with h | h | h | h | h
        · exact absurd h h3
        · exact absurd (Or.inl h) h1
        · exact absurd (Or.inr h) h1
        · exact absurd (Or.inl h) h2
        · exact absurd (Or.inr h) h2

/-- C12: for every document and all integers `fromIndex`, `toIndex`:
`MoveInboundRuleGroup` returns the document exactly as it was when the two indices are
equal or one of them is negative or not below the length of the inbound list (so always
on the empty list), and for all indices it leaves the outbound list as it was; the
operation is total.  The same for `MoveOutboundRuleGroup` with the lists exchanged. -/
theorem C12_move_guards_are_noops (w : WAF) (fromIndex toIndex : Int) :
    ((fromIndex = toIndex ∨ fromIndex < 0 ∨ (w.Inbound.length : Int) ≤ fromIndex ∨
        toIndex < 0 ∨ (w.Inbound.length : Int) ≤ toIndex) →
      w.MoveInboundRuleGroup fromIndex toIndex = w) ∧
    (w.MoveInboundRuleGroup fromIndex toIndex).Outbound = w.Outbound ∧
    ((fromIndex = toIndex ∨ fromIndex < 0 ∨ (w.Outbound.length : Int) ≤ fromIndex ∨
        toIndex < 0 ∨ (w.Outbound.length : Int) ≤ toIndex) →
      w.MoveOutboundRuleGroup fromIndex toIndex = w) ∧
    (w.MoveOutboundRuleGroup fromIndex toIndex).Inbound = w.Inbound := by
  refine ⟨?_, rfl, ?_, rfl⟩
  · intro h
    unfold WAF.MoveInboundRuleGroup
    rw [moveRuleGroup_noop _ _ _ h]
  · intro h
    unfold WAF.MoveOutboundRuleGroup
    rw [moveRuleGroup_noop _ _ _ h]

/-- C12 at `exMoveDoc` (four inbound, two outbound groups): equal indices, a negative
index, an index equal to the length, and a move on an empty list all change nothing. -/
theorem C12_move_guards_are_noops_witness :
    exMoveDoc.MoveInboundRuleGroup 2 2 = exMoveDoc ∧
    exMoveDoc.MoveInboundRuleGroup (-1) 2 = exMoveDoc ∧
    exMoveDoc.MoveInboundRuleGroup 1 4 = exMoveDoc ∧
    exMoveDoc.MoveOutboundRuleGroup 2 0 = exMoveDoc ∧
    exEmpty.MoveOutboundRuleGroup 0 0 = exEmpty :=
  ⟨(C12_move_guards_are_noops exMoveDoc 2 2).1 (by decide),
    (C12_move_guards_are_noops exMoveDoc (-1) 2).1 (by decide),
    (C12_move_guards_are_noops exMoveDoc 1 4).1 (by decide),
    (C12_move_guards_are_noops exMoveDoc 2 0).2.2.1 (by decide),
    (C12_move_guards_are_noops exEmpty 0 0).2.2.1 (by decide)⟩

/-- C13: for a non-empty path, after `Save` the document is the one before with
`CreatedVersion` replaced by the engine version when it was empty, and is exactly the
one before when `CreatedVersion` was not empty; this holds whether or not encoding and
writing succeed.  For the empty path `Save` returns an error and leaves the document
(also an empty `CreatedVersion`) and the file system as they were. -/
theorem C13_save_stamps_empty_version {B FS : Type} (env : FileEnv B FS) (w : WAF)
    (path : String) (fs : FS) :
    (path.isEmpty = false → w.CreatedVersion.isEmpty = true →
      (w.Save env path fs).waf = { w with CreatedVersion := env.TeaVersion }) ∧
    (path.isEmpty = false → w.CreatedVersion.isEmpty = false →
      (w.Save env path fs).waf = w) ∧
    (path.isEmpty = true →
      (w.Save env path fs).err = some "path should not be empty" ∧
      (w.Save env path fs).waf = w ∧ (w.Save env path fs).fs = fs) := by
  refine ⟨?_, ?_, ?_⟩
  · intro hp hv
    unfold WAF.Save
    simp only [hp, hv, Bool.false_eq_true, ↓reduceIte]
    split <;> rfl
  · intro hp hv
    unfold WAF.Save
    simp only [hp, hv, Bool.false_eq_true, ↓reduceIte]
    split <;> rfl
  · intro hp
    unfold WAF.Save
    rw [if_pos hp]
    exact ⟨rfl, rfl, rfl⟩

/-- C13 at the examples: saving the never-saved `exFresh` stamps it `1.0`, also when
the write fails; saving `exLoaded` (stamped `0.9`) leaves it as it is; saving to the
empty path is an error without effect. -/
theorem C13_save_stamps_empty_version_witness :
    (exFresh.Save exFileEnv "/waf.conf" []).waf = { exFresh with CreatedVersion := "1.0" } ∧
    (exFresh.Save exFileEnv "/readonly" []).waf = { exFresh with CreatedVersion := "1.0" } ∧
    (exLoaded.Save exFileEnv "/waf.conf" []).waf = exLoaded ∧
    ((exFresh.Save exFileEnv "" []).err = some "path should not be empty" ∧
      (exFresh.Save exFileEnv "" []).waf = exFresh ∧ (exFresh.Save exFileEnv "" []).fs = []) :=
  ⟨(C13_save_stamps_empty_version exFileEnv exFresh "/waf.conf" []).1 (by decide) (by decide),
    (C13_save_stamps_empty_version exFileEnv exFresh "/readonly" []).1 (by decide) (by decide),
    (C13_save_stamps_empty_version exFileEnv exLoaded "/waf.conf" []).2.1 (by decide)
      (by decide),
    (C13_save_stamps_empty_version exFileEnv exFresh "" []).2.2 (by decide)⟩

/-! ## Invariants of the mutators: claims C14 and C15 -/

theorem mem_removeLoop (id : String) (l : List RuleGroup) (x : RuleGroup) :
    x ∈ removeLoop id l ↔ x ∈ l ∧ (x.Id == id) = false := by
  induction l with
  | nil => simp [removeLoop]
  | cons g rest ih =>
    unfold removeLoop
    cases hg : (g.Id == id) with
    | true =>
      simp only [↓reduceIte, ih, List.mem_cons]
      constructor
      · rintro ⟨h1, h2⟩
        exact ⟨Or.inr h1, h2⟩
      · rintro ⟨h1 | h1, h2⟩
        · rw [h1, hg] at h2
          exact Bool.noConfusion h2
        · exact ⟨h1, h2⟩
    | false =>
      simp only [Bool.false_eq_true, ↓reduceIte, List.mem_cons, ih]
      constructor
      · rintro (h1 | ⟨h1, h2⟩)
        · rw [h1]
          exact ⟨Or.inl rfl, hg⟩
        · exact ⟨Or.inr h1, h2⟩
      · rintro ⟨h1 | h1, h2⟩
        · exact Or.inl h1
        · exact Or.inr ⟨h1, h2⟩

theorem mem_moveLoop (group : RuleGroup) (fromIndex toIndex : Int) (i : Nat)
    (l : List RuleGroup) (x : RuleGroup) (h : x ∈ moveLoop group fromIndex toIndex i l) :
    x = group ∨ x ∈ l := by
  induction l generalizing i with
  | nil => simp [moveLoop] at h
  | cons g rest ih =>
    unfold moveLoop at h
    split at h
    · rcases ih _ h with h1 | h1
      · exact Or.inl h1
      · exact Or.inr (List.mem_cons_of_mem _ h1)
    · simp only [List.mem_append, List.mem_singleton] at h
      rcases h with ((h1 | h1) | h1) | h1
      · split at h1
        · exact Or.inl (by simpa using h1)
        · simp at h1
      · exact Or.inr (by rw [h1]; exact List.mem_cons_self _ _)
      · split at h1
        · exact Or.inl (by simpa using h1)
        · simp at h1
      · rcases ih _ h1 with h2 | h2
        · exact Or.inl h2
        · exact Or.inr (List.mem_cons_of_mem _ h2)

theorem mem_moveRuleGroup (groups : List RuleGroup) (fromIndex toIndex : Int) (x : RuleGroup)
    (h : x ∈ moveRuleGroup groups fromIndex toIndex) : x ∈ groups := by
  unfold moveRuleGroup at h
  split at h
  · exact h
  · split at h
    · exact h
    · split at h
      · exact h
      · split at h
        · exact h
        · rename_i group hg
          rcases mem_moveLoop _ _ _ _ _ _ h with h1 | h1
          · rw [h1]
            exact List.getElem?_mem hg
          · exact h1

theorem mem_storeFirst (p : RuleGroup → Bool) (new : RuleGroup) (l : List RuleGroup)
    (x : RuleGroup) (h : x ∈ storeFirst p new l) : x ∈ l ∨ x = new := by
  induction l with
  | nil => simp [storeFirst] at h
  | cons g rest ih =>
    unfold storeFirst at h
    split at h
    · rcases List.mem_cons.mp h with h1 | h1
      · exact Or.inr h1
      · exact Or.inl (List.mem_cons_of_mem _ h1)
    · rcases List.mem_cons.mp h with h1 | h1
      · exact Or.inl (by rw [h1]; exact List.mem_cons_self _ _)
      · rcases ih h1 with h2 | h2
        · exact Or.inl (List.mem_cons_of_mem _ h2)
        · exact Or.inr h2

theorem find?_some_mem (p : RuleGroup → Bool) (l : List RuleGroup) (x : RuleGroup)
    (h : l.find? p = some x) : x ∈ l := by
  induction l with
  | nil => simp at h
  | cons g rest ih =>
    cases hp : p g with
    | true =>
      simp [List.find?, hp] at h
      rw [h]
      exact List.mem_cons_self _ _
    | false =>
      simp [List.find?, hp] at h
      exact List.mem_cons_of_mem _ (ih h)

theorem DirectionOK_AddRuleGroup (w : WAF) (g : RuleGroup) (h : DirectionOK w) :
    DirectionOK (w.AddRuleGroup g) := by
  unfold WAF.AddRuleGroup
  cases hg : g.IsInbound with
  | true =>
    refine ⟨?_, h.2⟩
    intro x hx
    rcases List.mem_append.mp hx with h1 | h1
    · exact h.1 x h1
    · rw [List.mem_singleton.mp h1]
      exact hg
  | false =>
    refine ⟨h.1, ?_⟩
    intro x hx
    rcases List.mem_append.mp hx with h1 | h1
    · exact h.2 x h1
    · rw [List.mem_singleton.mp h1]
      exact hg

theorem DirectionOK_store (w : WAF) (code : String) (old new : RuleGroup)
    (hfind : w.FindRuleGroupWithCode code = some old) (hdir : new.IsInbound = old.IsInbound)
    (h : DirectionOK w) : DirectionOK (w.storeRuleGroupWithCode code new) := by
  obtain ⟨_, h1 | ⟨hin, hout⟩⟩ := FindRuleGroupWithCode_some w code old hfind
  · unfold WAF.storeRuleGroupWithCode
    rw [find?_some_any _ _ _ h1]
    refine ⟨?_, h.2⟩
    intro x hx
    rcases mem_storeFirst _ _ _ _ hx with h2 | h2
    · exact h.1 x h2
    · rw [h2, hdir]
      exact h.1 old (find?_some_mem _ _ _ h1)
  · unfold WAF.storeRuleGroupWithCode
    rw [find?_none_any _ _ hin]
    refine ⟨h.1, ?_⟩
    intro x hx
    rcases mem_storeFirst _ _ _ _ hx with h2 | h2
    · exact h.2 x h2
    · rw [h2, hdir]
      exact h.2 old (find?_some_mem _ _ _ hout)

theorem GroupExtends_IsInbound {g g1 : RuleGroup} (h : GroupExtends g g1) :
    g1.IsInbound = g.IsInbound := by
  obtain ⟨m, rfl⟩ := h
  rfl

theorem DirectionOK_mergeGroups (env : MergeEnv) (groups : List RuleGroup) (w : WAF) (n : Nat)
    (ch : List String) (h : DirectionOK w) : DirectionOK (mergeGroups env groups w n ch).1 := by
  induction groups generalizing w n ch with
  | nil => exact h
  | cons g rest ih =>
    cases hf : w.FindRuleGroupWithCode g.Code with
    | none =>
      rw [mergeGroups_cons_none env g rest w n ch hf]
      exact ih _ _ _ (DirectionOK_AddRuleGroup w _ h)
    | some old =>
      rw [mergeGroups_cons_some env g rest w n ch old hf]
      exact ih _ _ _ (DirectionOK_store w g.Code old _ hf
        (GroupExtends_IsInbound (mergeRuleSets_extends _ _ _ _ _)) h)

/-- C14: if every inbound entry of a document has `IsInbound = true` and every
outbound entry has `IsInbound = false`, the same holds after `AddRuleGroup` of any
group, after `RemoveRuleGroup` of any id, after `MoveInboundRuleGroup` and
`MoveOutboundRuleGroup` with any indices, and after `MergeTemplate` with any template,
also one that lists its groups under the wrong direction. -/
theorem C14_direction_invariant_preserved (env : MergeEnv) (w : WAF) (g : RuleGroup)
    (id : String) (fromIndex toIndex : Int) (h : DirectionOK w) :
    DirectionOK (w.AddRuleGroup g) ∧ DirectionOK (w.RemoveRuleGroup id) ∧
    DirectionOK (w.MoveInboundRuleGroup fromIndex toIndex) ∧
    DirectionOK (w.MoveOutboundRuleGroup fromIndex toIndex) ∧
    DirectionOK (w.MergeTemplate env).1 := by
  refine ⟨DirectionOK_AddRuleGroup w g h, ?_, ?_, ?_, ?_⟩
  · unfold WAF.RemoveRuleGroup
    split
    · exact h
    · exact ⟨fun x hx => h.1 x ((mem_removeLoop _ _ _).mp hx).1,
        fun x hx => h.2 x ((mem_removeLoop _ _ _).mp hx).1⟩
  · exact ⟨fun x hx => h.1 x (mem_moveRuleGroup _ _ _ _ hx), h.2⟩
  · exact ⟨h.1, fun x hx => h.2 x (mem_moveRuleGroup _ _ _ _ hx)⟩
  · unfold WAF.MergeTemplate
    split
    · exact h
    · exact DirectionOK_mergeGroups env _ _ 0 [] h

/-- C14 at `exMoveDoc`, with a group to add, an id to remove, a move and the template
of `exMixedEnv`, which lists an outbound group inbound and an inbound group outbound. -/
theorem C14_direction_invariant_preserved_witness :
    DirectionOK (exMoveDoc.AddRuleGroup (exGroup "rce" true true [])) ∧
    DirectionOK (exMoveDoc.RemoveRuleGroup "group-b") ∧
    DirectionOK (exMoveDoc.MoveInboundRuleGroup 1 0) ∧
    DirectionOK (exMoveDoc.MoveOutboundRuleGroup 1 0) ∧
    DirectionOK (exMoveDoc.MergeTemplate exMixedEnv).1 :=
  C14_direction_invariant_preserved exMixedEnv exMoveDoc (exGroup "rce" true true [])
    "group-b" 1 0 (by decide)

theorem storeFirst_map_code (p : RuleGroup → Bool) (old new : RuleGroup) (l : List RuleGroup)
    (hfind : l.find? p = some old) (hcode : new.Code = old.Code) :
    (storeFirst p new l).map (fun group => group.Code) = l.map (fun group => group.Code) := by
  induction l with
  | nil => rfl
  | cons g rest ih =>
    unfold storeFirst
    cases hp : p g with
    | true =>
      simp [List.find?, hp] at hfind
      subst hfind
      simp [hcode]
    | false =>
      simp [List.find?, hp] at hfind
      simp [ih hfind]

theorem groupCodes_store (w : WAF) (code : String) (old new : RuleGroup)
    (hfind : w.FindRuleGroupWithCode code = some old) (hcode : new.Code = old.Code) :
    (w.storeRuleGroupWithCode code new).groupCodes = w.groupCodes := by
  obtain ⟨_, h | ⟨hin, hout⟩⟩ := FindRuleGroupWithCode_some w code old hfind
  · unfold WAF.storeRuleGroupWithCode WAF.groupCodes
    rw [find?_some_any _ _ _ h]
    simp only [↓reduceIte, List.map_append]
    rw [storeFirst_map_code _ old new _ h hcode]
  · unfold WAF.storeRuleGroupWithCode WAF.groupCodes
    rw [find?_none_any _ _ hin]
    simp only [Bool.false_eq_true, ↓reduceIte, List.map_append]
    rw [storeFirst_map_code _ old new _ hout hcode]

theorem groupCodes_AddRuleGroup (w : WAF) (x : RuleGroup) :
    List.Perm (w.AddRuleGroup x).groupCodes (x.Code :: w.groupCodes) := by
  unfold WAF.AddRuleGroup WAF.groupCodes
  cases x.IsInbound with
  | true =>
    simp only [↓reduceIte, List.map_append, List.map_cons, List.map_nil, List.append_assoc,
      List.singleton_append]
    exact List.perm_middle
  | false =>
    simp only [Bool.false_eq_true, ↓reduceIte, List.map_append, List.map_cons, List.map_nil]
    rw [← List.append_assoc]
    exact List.perm_append_singleton _ _

theorem not_contains_codes (w : WAF) (c : String) (h : w.ContainsGroupCode c = false) :
    ∀ a ∈ w.groupCodes, c = a → c.isEmpty = true := by
  intro a ha hca
  subst hca
  rw [ContainsGroupCode_eq] at h
  cases hc : c.isEmpty with
  | true => rfl
  | false =>
    exfalso
    rw [hc] at h
    simp only [Bool.not_false, Bool.true_and, Bool.or_eq_false_iff] at h
    unfold WAF.groupCodes at ha
    obtain ⟨g, hg, hgc⟩ := List.mem_map.mp ha
    rcases List.mem_append.mp hg with h1 | h1
    · have := List.any_eq_false.mp h.1 g h1
      simp [hgc] at this
    · have := List.any_eq_false.mp h.2 g h1
      simp [hgc] at this

theorem UniqueCodes_AddRuleGroup (w : WAF) (x : RuleGroup) (h : UniqueCodes w)
    (habs : w.ContainsGroupCode x.Code = false) : UniqueCodes (w.AddRuleGroup x) := by
  unfold UniqueCodes
  have hsymm : ∀ {a b : String}, (a = b → a.isEmpty = true) → (b = a → b.isEmpty = true) := by
    intro a b hab hba
    rw [hba]
    exact hab hba.symm
  rw [(groupCodes_AddRuleGroup w x).pairwise_iff hsymm, List.pairwise_cons]
  exact ⟨not_contains_codes w x.Code habs, h⟩

theorem UniqueCodes_mergeGroups (env : MergeEnv) (groups : List RuleGroup) (w : WAF) (n : Nat)
    (ch : List String) (h : UniqueCodes w) : UniqueCodes (mergeGroups env groups w n ch).1 := by
  induction groups generalizing w n ch with
  | nil => exact h
  | cons g rest ih =>
    cases hf : w.FindRuleGroupWithCode g.Code with
    | none =>
      rw [mergeGroups_cons_none env g rest w n ch hf]
      exact ih _ _ _ (UniqueCodes_AddRuleGroup w _ h ((FindRuleGroupWithCode_none_iff _ _).mp hf))
    | some old =>
      rw [mergeGroups_cons_some env g rest w n ch old hf]
      apply ih
      unfold UniqueCodes
      rw [groupCodes_store w g.Code old _ hf
        (GroupExtends_code_eq (mergeRuleSets_extends _ _ _ _ _))]
      exact h

/-- C15: if no two groups of inbound∪outbound share a non-empty code before
`MergeTemplate`, then no two groups of inbound∪outbound share a non-empty code after
it, for every template, also one that repeats a code or carries codes of the document. -/
theorem C15_merge_keeps_codes_unique (env : MergeEnv) (w : WAF) (h : UniqueCodes w) :
    UniqueCodes (w.MergeTemplate env).1 := by
  unfold WAF.MergeTemplate
  split
  · exact h
  · exact UniqueCodes_mergeGroups env _ _ 0 [] h

/-- C15 at `exLoaded` and the template of `exTwinEnv`, which carries the code `sqli`
twice: the merged document has one group `sqli`. -/
theorem C15_merge_keeps_codes_unique_witness :
    (exLoaded.MergeTemplate exTwinEnv).1.groupCodes = ["sqli", ""] ∧
    UniqueCodes (exLoaded.MergeTemplate exTwinEnv).1 :=
  ⟨by decide, C15_merge_keeps_codes_unique exTwinEnv exLoaded (by decide)⟩

/-! ## Save and load: claim C16 -/

theorem Save_ok {B FS : Type} (env : FileEnv B FS) (w : WAF) (path : String) (fs : FS)
    (h : (w.Save env path fs).err = none) :
    path.isEmpty = false ∧
    ∃ b : B, env.Marshal (w.Save env path fs).waf.document = Except.ok b ∧
      env.WriteFile fs path b = ((w.Save env path fs).fs, none) ∧
      (w.Save env path fs).waf =
        (if w.CreatedVersion.isEmpty then { w with CreatedVersion := env.TeaVersion } else w) := by
  unfold WAF.Save at h ⊢
  cases hp : path.isEmpty with
  | true => simp [hp] at h
  | false =>
    simp only [hp, Bool.false_eq_true, ↓reduceIte] at h ⊢
    refine ⟨trivial, ?_⟩
    generalize (if w.CreatedVersion.isEmpty = true then
      ({ w with CreatedVersion := env.TeaVersion } : WAF) else w) = w1 at h ⊢
    cases hm : env.Marshal w1.document with
    | error e => simp [hm] at h
    | ok b =>
      simp only [hm] at h ⊢
      refine ⟨b, rfl, ?_, trivial⟩
      rw [← h]

theorem document_toWAF (d : Document) : d.toWAF.document = d := rfl

/-- C16: over an encoder/decoder pair that round-trips and a file system that stores
what is written: when `w.Save(p)` succeeds, `NewWAFFromFile(p)` succeeds with a document
`w2` that has the `Id`, `On`, `Name`, `Inbound` and `Outbound` of `w` and the
`CreatedVersion` that `w` has after its `Save`; and when `w2.Save(p2)` succeeds it leaves
`w2` as it is and the content of `p2` equals the content of `p`. -/
theorem C16_save_load_round_trip {B FS : Type} (env : FileEnv B FS) (w : WAF)
    (p p2 : String) (fs fs2 : FS) (hcodec : CodecRoundTrips env)
    (hfs : FileSystemStores env) (hsave : (w.Save env p fs).err = none) :
    ∃ (w2 : WAF) (b : B),
      NewWAFFromFile env (w.Save env p fs).fs p = Except.ok w2 ∧
      env.ReadFile (w.Save env p fs).fs p = Except.ok b ∧
      w2.document = (w.Save env p fs).waf.document ∧
      (w2.Id = w.Id ∧ w2.On = w.On ∧ w2.Name = w.Name ∧ w2.Inbound = w.Inbound ∧
        w2.Outbound = w.Outbound) ∧
      ((w2.Save env p2 fs2).err = none →
        env.ReadFile (w2.Save env p2 fs2).fs p2 = Except.ok b ∧
        (w2.Save env p2 fs2).waf = w2) := by
  obtain ⟨hp, b, hm, hw, hwaf⟩ := Save_ok env w p fs hsave
  obtain ⟨hex, hread⟩ := hfs _ _ _ _ hw
  have hun := hcodec _ _ hm
  have hload : NewWAFFromFile env (w.Save env p fs).fs p =
      Except.ok (w.Save env p fs).waf.document.toWAF := by
    unfold NewWAFFromFile
    simp only [hp, hex, hread, hun, Bool.false_eq_true, ↓reduceIte, Bool.not_true]
  refine ⟨(w.Save env p fs).waf.document.toWAF, b, hload, hread, rfl, ?_, ?_⟩
  · rw [hwaf]
    split <;> exact ⟨rfl, rfl, rfl, rfl, rfl⟩
  · intro hsave2
    obtain ⟨_, b2, hm2, hw2, hwaf2⟩ := Save_ok env _ p2 fs2 hsave2
    have hsame : (if (w.Save env p fs).waf.document.toWAF.CreatedVersion.isEmpty then
        ({ (w.Save env p fs).waf.document.toWAF with CreatedVersion := env.TeaVersion } : WAF)
        else (w.Save env p fs).waf.document.toWAF) = (w.Save env p fs).waf.document.toWAF := by
      split
      · rename_i hempty
        have hcv : (w.Save env p fs).waf.CreatedVersion = env.TeaVersion := by
          rw [hwaf] at hempty ⊢
          split
          · rfl
          · rename_i hne
            rw [if_neg hne] at hempty
            exact absurd hempty hne
        show ({ (w.Save env p fs).waf.document.toWAF with
          CreatedVersion := env.TeaVersion } : WAF) = _
        rw [← hcv]
        rfl
      · rfl
    rw [hsame] at hwaf2
    rw [hwaf2, document_toWAF, hm] at hm2
    have hb : b2 = b := by
      injection hm2 with hm3
      exact hm3.symm
    rw [hb] at hw2
    exact ⟨(hfs _ _ _ _ hw2).2, hwaf2⟩

theorem exFileEnv_codec : CodecRoundTrips exFileEnv := by
  intro d b h
  have h1 : (Except.ok d : Except GoError Document) = Except.ok b := h
  injection h1 with h2
  rw [h2]
  rfl

theorem exFileEnv_stores : FileSystemStores exFileEnv := by
  intro fs fs1 path b h
  have h1 : (if path == "/readonly" then (fs, some "permission denied")
      else ((path, b) :: fs, none)) = (fs1, (none : Option GoError)) := h
  split at h1
  · injection h1 with _ h3
    exact Option.noConfusion h3
  · injection h1 with h2 _
    subst h2
    constructor
    · show (List.lookup path ((path, b) :: fs)).isSome = true
      simp [List.lookup]
    · show (match List.lookup path ((path, b) :: fs) with
        | some data => Except.ok data
        | none => Except.error "read failed") = Except.ok b
      simp [List.lookup]

/-- C16 at the never-saved document `exFresh`, saved to `/waf.conf`, loaded, and saved
again to `/copy.conf`. -/
theorem C16_save_load_round_trip_witness :
    ∃ (w2 : WAF) (b : Document),
      NewWAFFromFile exFileEnv (exFresh.Save exFileEnv "/waf.conf" []).fs "/waf.conf" =
        Except.ok w2 ∧
      exFileEnv.ReadFile (exFresh.Save exFileEnv "/waf.conf" []).fs "/waf.conf" = Except.ok b ∧
      w2.document = (exFresh.Save exFileEnv "/waf.conf" []).waf.document ∧
      (w2.Id = exFresh.Id ∧ w2.On = exFresh.On ∧ w2.Name = exFresh.Name ∧
        w2.Inbound = exFresh.Inbound ∧ w2.Outbound = exFresh.Outbound) ∧
      ((w2.Save exFileEnv "/copy.conf" []).err = none →
        exFileEnv.ReadFile (w2.Save exFileEnv "/copy.conf" []).fs "/copy.conf" = Except.ok b ∧
        (w2.Save exFileEnv "/copy.conf" []).waf = w2) :=
  C16_save_load_round_trip exFileEnv exFresh "/waf.conf" "/copy.conf" [] []
    exFileEnv_codec exFileEnv_stores (by decide)

/-! ## Moving a group: claim C17 -/

theorem moveLoop_past (group : RuleGroup) (f t : Nat) (i : Nat) (l : List RuleGroup)
    (hf : f < i) (ht : t < i) : moveLoop group f t i l = l := by
  induction l generalizing i with
  | nil => rfl
  | cons x rest ih =>
    have h1 : ¬ ((i : Int) = (f : Int)) := by omega
    have h2 : ¬ ((i : Int) = (t : Int)) := by omega
    simp [moveLoop, h1, h2, ih (i + 1) (by omega) (by omega)]

theorem moveLoop_behind (group : RuleGroup) (f t : Nat) (k i : Nat) (l : List RuleGroup)
    (hfi : f < i) (hk : i + k = t) (hlen : k < l.length) :
    moveLoop group f t i l = List.insertIdx (k + 1) group l := by
  induction l generalizing i k with
  | nil => simp at hlen
  | cons x rest ih =>
    have h1 : ¬ ((i : Int) = (f : Int)) := by omega
    cases k with
    | zero =>
      have h2 : (i : Int) = (t : Int) := by omega
      have h3 : ¬ ((f : Int) > (t : Int)) := by omega
      have h4 : (f : Int) < (t : Int) := by omega
      have h5 : ¬ (t = f) := by omega
      simp [moveLoop, h2, h3, h4, h5,
        moveLoop_past group f t (i + 1) rest (by omega) (by omega)]
    | succ k1 =>
      have h2 : ¬ ((i : Int) = (t : Int)) := by omega
      have hlen1 : k1 < rest.length := by simpa using hlen
      simp [moveLoop, h1, h2, ih k1 (i + 1) (by omega) (by omega) hlen1]

theorem moveLoop_before (group : RuleGroup) (f t : Nat) (k i : Nat) (l : List RuleGroup)
    (hti : t < i) (hk : i + k = f) : moveLoop group f t i l = l.eraseIdx k := by
  induction l generalizing i k with
  | nil => rfl
  | cons x rest ih =>
    have h2 : ¬ ((i : Int) = (t : Int)) := by omega
    cases k with
    | zero =>
      have h1 : (i : Int) = (f : Int) := by omega
      simp [moveLoop, h1, moveLoop_past group f t (i + 1) rest (by omega) (by omega)]
    | succ k1 =>
      have h1 : ¬ ((i : Int) = (f : Int)) := by omega
      simp [moveLoop, h1, h2, ih k1 (i + 1) (by omega) (by omega)]

theorem moveLoop_eq (group : RuleGroup) (f t : Nat) (a b i : Nat) (l : List RuleGroup)
    (ha : i + a = f) (hb : i + b = t) (hab : a ≠ b) (hal : a < l.length)
    (hbl : b < l.length) :
    moveLoop group f t i l = List.insertIdx b group (l.eraseIdx a) := by
  induction l generalizing i a b with
  | nil => simp at hal
  | cons x rest ih =>
    cases a with
    | zero =>
      cases b with
      | zero => exact absurd rfl hab
      | succ b1 =>
        have h1 : (i : Int) = (f : Int) := by omega
        have hbl1 : b1 < rest.length := by simpa using hbl
        simp [moveLoop, h1, moveLoop_behind group f t b1 (i + 1) rest (by omega) (by omega) hbl1]
    | succ a1 =>
      have h1 : ¬ ((i : Int) = (f : Int)) := by omega
      have hal1 : a1 < rest.length := by simpa using hal
      cases b with
      | zero =>
        have h2 : (i : Int) = (t : Int) := by omega
        have h3 : (f : Int) > (t : Int) := by omega
        have h4 : ¬ ((f : Int) < (t : Int)) := by omega
        have h5 : ¬ (t = f) := by omega
        simp [moveLoop, h2, h3, h4, h5,
          moveLoop_before group f t a1 (i + 1) rest (by omega) (by omega)]
      | succ b1 =>
        have h2 : ¬ ((i : Int) = (t : Int)) := by omega
        have hbl1 : b1 < rest.length := by simpa using hbl
        simp [moveLoop, h1, h2,
          ih a1 b1 (i + 1) (by omega) (by omega) (by omega) hal1 hbl1]

theorem moveRuleGroup_eq (groups : List RuleGroup) (f t : Nat) (g : RuleGroup)
    (hft : f ≠ t) (hf : groups[f]? = some g) (ht : t < groups.length) :
    moveRuleGroup groups f t = List.insertIdx t g (groups.eraseIdx f) := by
  have hfl : f < groups.length := by
    by_contra hcon
    rw [List.getElem?_eq_none (Nat.le_of_not_lt hcon)] at hf
    exact Option.noConfusion hf
  unfold moveRuleGroup
  have h1 : ¬ ((f : Int) < 0 ∨ (f : Int) ≥ (groups.length : Int)) := by omega
  have h2 : ¬ ((t : Int) < 0 ∨ (t : Int) ≥ (groups.length : Int)) := by omega
  have h3 : ¬ ((f : Int) = (t : Int)) := by omega
  rw [if_neg h1, if_neg h2, if_neg h3]
  simp only [Int.toNat_ofNat, hf]
  exact moveLoop_eq g f t f t 0 groups (by omega) (by omega) hft hfl ht

theorem perm_cons_eraseIdx (l : List RuleGroup) (f : Nat) (g : RuleGroup)
    (hf : l[f]? = some g) : List.Perm (g :: l.eraseIdx f) l := by
  induction l generalizing f with
  | nil => simp at hf
  | cons x rest ih =>
    cases f with
    | zero =>
      simp at hf
      subst hf
      exact List.Perm.refl _
    | succ f1 =>
      simp at hf
      simp only [List.eraseIdx_cons_succ]
      exact (List.Perm.swap x g _).trans ((ih f1 hf).cons x)

theorem moveRuleGroup_spec (groups : List RuleGroup) (f t : Nat) (g : RuleGroup)
    (hft : f ≠ t) (hf : groups[f]? = some g) (ht : t < groups.length) :
    moveRuleGroup groups f t = List.insertIdx t g (groups.eraseIdx f) ∧
    (moveRuleGroup groups f t).length = groups.length ∧
    List.Perm (moveRuleGroup groups f t) groups ∧
    (moveRuleGroup groups f t)[t]? = some g := by
  have hfl : f < groups.length := by
    by_contra hcon
    rw [List.getElem?_eq_none (Nat.le_of_not_lt hcon)] at hf
    exact Option.noConfusion hf
  have hlen : (groups.eraseIdx f).length = groups.length - 1 := List.length_eraseIdx_of_lt hfl
  have htl : t ≤ (groups.eraseIdx f).length := by omega
  rw [moveRuleGroup_eq groups f t g hft hf ht]
  refine ⟨rfl, ?_, ?_, ?_⟩
  · rw [List.length_insertIdx _ _ htl, hlen]
    omega
  · exact (List.perm_insertIdx g _ htl).trans (perm_cons_eraseIdx groups f g hf)
  · have hlt : t < (List.insertIdx t g (groups.eraseIdx f)).length := by
      rw [List.length_insertIdx _ _ htl]
      omega
    rw [List.getElem?_eq_getElem hlt, List.getElem_insertIdx_self _ _ _ htl]

/-- C17: for indices `f ≠ t` that are valid in the inbound list `L`, with `g = L[f]`,
after `MoveInboundRuleGroup(f, t)` the inbound list is `L` with the entry at `f` erased
and `g` inserted at index `t` (so all other groups keep their relative order); it has
the length of `L`, is a permutation of `L` and holds `g` at index `t`.  This covers
`f < t` and `f > t`.  The same for `MoveOutboundRuleGroup` and the outbound list. -/
theorem C17_move_reinserts_group (w : WAF) (f t : Nat) (g : RuleGroup) (hft : f ≠ t) :
    (w.Inbound[f]? = some g → t < w.Inbound.length →
      (w.MoveInboundRuleGroup f t).Inbound = List.insertIdx t g (w.Inbound.eraseIdx f) ∧
      (w.MoveInboundRuleGroup f t).Inbound.length = w.Inbound.length ∧
      List.Perm (w.MoveInboundRuleGroup f t).Inbound w.Inbound ∧
      (w.MoveInboundRuleGroup f t).Inbound[t]? = some g) ∧
    (w.Outbound[f]? = some g → t < w.Outbound.length →
      (w.MoveOutboundRuleGroup f t).Outbound = List.insertIdx t g (w.Outbound.eraseIdx f) ∧
      (w.MoveOutboundRuleGroup f t).Outbound.length = w.Outbound.length ∧
      List.Perm (w.MoveOutboundRuleGroup f t).Outbound w.Outbound ∧
      (w.MoveOutboundRuleGroup f t).Outbound[t]? = some g) :=
  ⟨fun hf ht => moveRuleGroup_spec w.Inbound f t g hft hf ht,
    fun hf ht => moveRuleGroup_spec w.Outbound f t g hft hf ht⟩

/-- C17 at `exMoveDoc`: moving inbound index 0 to 2 turns `a b c d` into `b c a d`,
moving inbound index 3 to 1 turns it into `a d b c`, moving outbound index 1 to 0 turns
`x y` into `y x`. -/
theorem C17_move_reinserts_group_witness :
    (exMoveDoc.MoveInboundRuleGroup 0 2).Inbound =
      [exGroup "b" true true [], exGroup "c" true true [], exGroup "a" true true [],
        exGroup "d" true true []] ∧
    (exMoveDoc.MoveInboundRuleGroup 3 1).Inbound =
      [exGroup "a" true true [], exGroup "d" true true [], exGroup "b" true true [],
        exGroup "c" true true []] ∧
    (exMoveDoc.MoveOutboundRuleGroup 1 0).Outbound =
      [exGroup "y" true false [], exGroup "x" true false []] :=
  ⟨((C17_move_reinserts_group exMoveDoc 0 2 (exGroup "a" true true []) (by decide)).1
      rfl (by decide)).1,
    ((C17_move_reinserts_group exMoveDoc 3 1 (exGroup "d" true true []) (by decide)).1
      rfl (by decide)).1,
    ((C17_move_reinserts_group exMoveDoc 1 0 (exGroup "y" true false []) (by decide)).2
      rfl (by decide)).1⟩

/-! ## Cached flags, removal, copies: claims C18 to C20 -/

theorem addRuleGroups_flags (w : WAF) (groups : List RuleGroup) :
    (addRuleGroups w groups).hasInboundRules = w.hasInboundRules ∧
    (addRuleGroups w groups).hasOutboundRules = w.hasOutboundRules := by
  unfold addRuleGroups
  induction groups generalizing w with
  | nil => exact ⟨rfl, rfl⟩
  | cons g rest ih =>
    rw [List.foldl_cons]
    have h1 : (w.AddRuleGroup g).hasInboundRules = w.hasInboundRules ∧
        (w.AddRuleGroup g).hasOutboundRules = w.hasOutboundRules := by
      unfold WAF.AddRuleGroup
      split <;> exact ⟨rfl, rfl⟩
    exact ⟨(ih _).1.trans h1.1, (ih _).2.trans h1.2⟩

theorem MatchRequest_flag_off {Req Resp W : Type} (env : MatchEnv Req Resp W) (w : WAF)
    (rawReq : Req) (writer : W) (h : w.hasInboundRules = false) :
    w.MatchRequest env rawReq writer = passOutcome writer := by
  unfold WAF.MatchRequest
  rw [h]
  rfl

theorem MatchResponse_flag_off {Req Resp W : Type} (env : MatchEnv Req Resp W) (w : WAF)
    (rawReq : Req) (rawResp : Resp) (writer : W) (h : w.hasOutboundRules = false) :
    w.MatchResponse env rawReq rawResp writer = passOutcome writer := by
  unfold WAF.MatchResponse
  rw [h]
  rfl

theorem NewWAFFromFile_flags {B FS : Type} (fenv : FileEnv B FS) (fs : FS) (path : String)
    (w : WAF) (h : NewWAFFromFile fenv fs path = Except.ok w) :
    w.hasInboundRules = false ∧ w.hasOutboundRules = false := by
  unfold NewWAFFromFile at h
  split at h
  · exact Except.noConfusion h
  · split at h
    · exact Except.noConfusion h
    · split at h
      · exact Except.noConfusion h
      · split at h
        · exact Except.noConfusion h
        · injection h with h1
          rw [← h1]
          exact ⟨rfl, rfl⟩

/-- C18: `MatchRequest` and `MatchResponse` decide on the flags cached by `Init`.  For a
document on which `Init` has not run (one returned by `NewWAF`, by `Copy` of any
document, or by `NewWAFFromFile`), whatever groups `AddRuleGroup` gave it afterwards,
both calls return `(true, nil, nil)` for every request, with the writer untouched and
no group evaluated.  The same holds for `MatchRequest` when the inbound list was empty
as `Init` ran and groups were added afterwards, and for `MatchResponse` with the
outbound list. -/
theorem C18_match_uses_cached_flags {Req Resp W B FS : Type} (env : MatchEnv Req Resp W)
    (fenv : FileEnv B FS) (groupInit : RuleGroup → Option GoError) (id : String) (w : WAF)
    (fs : FS) (path : String) (groups : List RuleGroup) (rawReq : Req) (rawResp : Resp)
    (writer : W) :
    ((addRuleGroups (NewWAF id) groups).MatchRequest env rawReq writer = passOutcome writer ∧
      (addRuleGroups (NewWAF id) groups).MatchResponse env rawReq rawResp writer =
        passOutcome writer) ∧
    ((addRuleGroups w.Copy groups).MatchRequest env rawReq writer = passOutcome writer ∧
      (addRuleGroups w.Copy groups).MatchResponse env rawReq rawResp writer =
        passOutcome writer) ∧
    (∀ w2 : WAF, NewWAFFromFile fenv fs path = Except.ok w2 →
      (addRuleGroups w2 groups).MatchRequest env rawReq writer = passOutcome writer ∧
      (addRuleGroups w2 groups).MatchResponse env rawReq rawResp writer =
        passOutcome writer) ∧
    (w.Inbound = [] →
      (addRuleGroups (w.Init groupInit).1 groups).MatchRequest env rawReq writer =
        passOutcome writer) ∧
    (w.Outbound = [] →
      (addRuleGroups (w.Init groupInit).1 groups).MatchResponse env rawReq rawResp writer =
        passOutcome writer) := by
  refine ⟨⟨?_, ?_⟩, ⟨?_, ?_⟩, ?_, ?_, ?_⟩
  · exact MatchRequest_flag_off env _ _ _ ((addRuleGroups_flags _ _).1.trans rfl)
  · exact MatchResponse_flag_off env _ _ _ _ ((addRuleGroups_flags _ _).2.trans rfl)
  · exact MatchRequest_flag_off env _ _ _ ((addRuleGroups_flags _ _).1.trans rfl)
  · exact MatchResponse_flag_off env _ _ _ _ ((addRuleGroups_flags _ _).2.trans rfl)
  · intro w2 h
    obtain ⟨h1, h2⟩ := NewWAFFromFile_flags fenv fs path w2 h
    exact ⟨MatchRequest_flag_off env _ _ _ ((addRuleGroups_flags _ _).1.trans h1),
      MatchResponse_flag_off env _ _ _ _ ((addRuleGroups_flags _ _).2.trans h2)⟩
  · intro h
    apply MatchRequest_flag_off
    rw [(addRuleGroups_flags _ _).1, Init_fst_hasInboundRules, h]
    rfl
  · intro h
    apply MatchResponse_flag_off
    rw [(addRuleGroups_flags _ _).2, Init_fst_hasOutboundRules, h]
    rfl

/-- C18 at the examples: the groups of `exDoc "sqli" "block"` block the request once
the document holding them is initialised, but not when they were added to an empty
document after its `Init`, nor on a document loaded from a file. -/
theorem C18_match_uses_cached_flags_witness :
    (((exDoc "sqli" "block").Init (fun _ => none)).1.MatchRequest exMatchEnv () []).ret =
      MatchReturn.returned false (some (exSet "s1" "first" "block")) none ∧
    (addRuleGroups (exEmpty.Init (fun _ => none)).1 (exGroups true "sqli" "block")).Inbound =
      exGroups true "sqli" "block" ∧
    (addRuleGroups (exEmpty.Init (fun _ => none)).1
        (exGroups true "sqli" "block")).MatchRequest exMatchEnv () [] = passOutcome [] ∧
    (∀ w2 : WAF,
      NewWAFFromFile exFileEnv [("/waf.conf", (exDoc "sqli" "block").document)] "/waf.conf" =
        Except.ok w2 →
      (addRuleGroups w2 []).MatchRequest exMatchEnv () [] = passOutcome [] ∧
      (addRuleGroups w2 []).MatchResponse exMatchEnv () () [] = passOutcome []) :=
  ⟨by decide, by decide,
    (C18_match_uses_cached_flags exMatchEnv exFileEnv (fun _ => none) "id" exEmpty
      [("/waf.conf", (exDoc "sqli" "block").document)] "/waf.conf"
      (exGroups true "sqli" "block") () () []).2.2.2.1 rfl,
    (C18_match_uses_cached_flags exMatchEnv exFileEnv (fun _ => none) "id" exEmpty
      [("/waf.conf", (exDoc "sqli" "block").document)] "/waf.conf" [] () () []).2.2.1⟩

theorem removeLoop_eq_filter (id : String) (l : List RuleGroup) :
    removeLoop id l = l.filter (fun g => !(g.Id == id)) := by
  induction l with
  | nil => rfl
  | cons g rest ih =>
    unfold removeLoop
    cases hg : (g.Id == id) with
    | true => simp [List.filter, hg, ih]
    | false => simp [List.filter, hg, ih]

theorem find?_removeLoop (id : String) (l : List RuleGroup) :
    (removeLoop id l).find? (fun group => group.Id == id) = none := by
  induction l with
  | nil => rfl
  | cons g rest ih =>
    unfold removeLoop
    cases hg : (g.Id == id) with
    | true => simpa using ih
    | false =>
      simp only [Bool.false_eq_true, ↓reduceIte, List.find?, hg]
      exact ih

/-- C19: for a non-empty id, after `RemoveRuleGroup(id)` the inbound list is the
original one without the entries carrying the id, all other entries in their original
order, and likewise the outbound list; no entry of either list carries the id,
however many did before, and `FindRuleGroup(id)` finds nothing.  For the empty id the
document is exactly as before, also when groups with an empty id exist. -/
theorem C19_remove_drops_exactly_the_id (w : WAF) (id : String) :
    (id.isEmpty = false →
      (w.RemoveRuleGroup id).Inbound = w.Inbound.filter (fun g => !(g.Id == id)) ∧
      (w.RemoveRuleGroup id).Outbound = w.Outbound.filter (fun g => !(g.Id == id)) ∧
      (∀ g ∈ (w.RemoveRuleGroup id).Inbound ++ (w.RemoveRuleGroup id).Outbound, g.Id ≠ id) ∧
      (w.RemoveRuleGroup id).FindRuleGroup id = none) ∧
    (id.isEmpty = true → w.RemoveRuleGroup id = w) := by
  constructor
  · intro hid
    unfold WAF.RemoveRuleGroup
    simp only [hid, Bool.false_eq_true, ↓reduceIte]
    refine ⟨removeLoop_eq_filter id _, removeLoop_eq_filter id _, ?_, ?_⟩
    · intro g hg hgid
      rcases List.mem_append.mp hg with h1 | h1
      · have h2 := ((mem_removeLoop id _ g).mp h1).2
        rw [hgid] at h2
        simp at h2
      · have h2 := ((mem_removeLoop id _ g).mp h1).2
        rw [hgid] at h2
        simp at h2
    · unfold WAF.FindRuleGroup
      simp only [hid, Bool.false_eq_true, ↓reduceIte, find?_removeLoop]
  · intro hid
    unfold WAF.RemoveRuleGroup
    rw [if_pos hid]

/-- C19 at `exDupDoc`: removing `dup` drops its three carriers and keeps the other
entries in order; removing the empty id keeps the group whose id is empty. -/
theorem C19_remove_drops_exactly_the_id_witness :
    ((exDupDoc.RemoveRuleGroup "dup").Inbound =
        [exGroup "a" true true [], { exTwinA with Id := "" }] ∧
      (exDupDoc.RemoveRuleGroup "dup").Outbound = [exUserGroup []] ∧
      (∀ g ∈ (exDupDoc.RemoveRuleGroup "dup").Inbound ++
          (exDupDoc.RemoveRuleGroup "dup").Outbound, g.Id ≠ "dup") ∧
      (exDupDoc.RemoveRuleGroup "dup").FindRuleGroup "dup" = none) ∧
    exDupDoc.RemoveRuleGroup "" = exDupDoc :=
  ⟨(C19_remove_drops_exactly_the_id exDupDoc "dup").1 (by decide),
    (C19_remove_drops_exactly_the_id exDupDoc "").2 (by decide)⟩

/-- C20: `Copy` returns a document with the `Id`, `On`, `Name`, inbound list and
outbound list of the original, with the empty `CreatedVersion` and without callback,
whatever the original had.  Hence, when the engine version is not empty,
`MergeTemplate` on the copy does not take the early return: its result is that of the
merge loop over the template groups on the copy stamped with the engine version, also
when the original is at the engine version and its own `MergeTemplate` changes nothing. -/
theorem C20_copy_drops_version_and_callback (env : MergeEnv) (w : WAF) :
    (w.Copy.Id = w.Id ∧ w.Copy.On = w.On ∧ w.Copy.Name = w.Name ∧
      w.Copy.Inbound = w.Inbound ∧ w.Copy.Outbound = w.Outbound ∧
      w.Copy.CreatedVersion = "" ∧ w.Copy.onActionCallback = none) ∧
    (env.TeaVersion ≠ "" →
      w.Copy.MergeTemplate env =
        mergeGroups env (env.Template.Inbound ++ env.Template.Outbound)
          { w.Copy with CreatedVersion := env.TeaVersion } 0 []) := by
  refine ⟨⟨rfl, rfl, rfl, rfl, rfl, rfl, rfl⟩, ?_⟩
  intro hv
  unfold WAF.MergeTemplate
  have hne : (w.Copy.CreatedVersion == env.TeaVersion) = false := by
    cases hb : (w.Copy.CreatedVersion == env.TeaVersion) with
    | false => rfl
    | true =>
      have h1 : w.Copy.CreatedVersion = env.TeaVersion := beq_iff_eq.mp hb
      exact absurd h1.symm hv
  rw [hne]
  rfl

/-- C20 at `exCurrent`, which is at the engine version `1.0`: its own merge returns no
change, the merge on its copy appends the missing template groups and sets again. -/
theorem C20_copy_drops_version_and_callback_witness :
    (exCurrent.MergeTemplate exMergeEnv).2 = [] ∧
    (exCurrent.Copy.MergeTemplate exMergeEnv).2 =
      ["+group xss", "+group sqli rule set:union", "+group leak"] ∧
    exCurrent.Copy.MergeTemplate exMergeEnv =
      mergeGroups exMergeEnv (exMergeEnv.Template.Inbound ++ exMergeEnv.Template.Outbound)
        { exCurrent.Copy with CreatedVersion := exMergeEnv.TeaVersion } 0 [] :=
  ⟨by decide, by decide,
    (C20_copy_drops_version_and_callback exMergeEnv exCurrent).2 (by decide)⟩

end TeaWAF
